import Mathlib

/-!
# Worker pool and timed dispatcher (dipdup-io/workerpool)

A shallow embedding of `pool.go` and `timed_pool.go`.

* Callbacks (`worker`, `dispatcher`, `errorHandler`) are opaque user code.  A field
  of type `Bool` records whether the callback is non-nil; what a call returns is
  supplied from outside (the dispatcher's `(tasks, err)`), and every call is written
  to a log.
* `time.Duration` is a signed 64-bit count of nanoseconds: products are reduced
  with `wrap64`.
* `tick` is embedded twice: as a function (one call of `tick`, where oracles say
  what each check of `ctx.Done()` reads and whether each send finds room), and
  split into atomic steps inside the step relation `step` of the whole pool, where
  goroutines interleave and a send on a full channel is not enabled.
* A `select` with several ready cases may take any of them.
* A channel operation completes, blocks or panics (`Outcome`); the sizes that `make`
  rejects depend on the platform and are a parameter of `NewPool`.
-/

namespace Workerpool

/-! ## Durations and tickers (Go's `time` package) -/

/-- Two's-complement reduction of an integer to the range of `int64`. -/
def wrap64 (x : Int) : Int := (x + 2 ^ 63) % 2 ^ 64 - 2 ^ 63

/-- The constant `time.Millisecond`, in nanoseconds. -/
def Millisecond : Int := 1000000

/-- A `time.Ticker`: its current period, and how many times `Reset` was called on it. -/
structure Ticker where
  period : Int
  resets : Nat
deriving DecidableEq, Repr

/-- The call `time.NewTicker(d)`; `none` is the panic on a non-positive duration. -/
def NewTicker (d : Int) : Option Ticker :=
  if d ≤ 0 then none else some { period := d, resets := 0 }

/-- The call `ticker.Reset(d)`; `none` is the panic on a non-positive duration. -/
def Ticker.Reset (t : Ticker) (d : Int) : Option Ticker :=
  if d ≤ 0 then none else some { period := d, resets := t.resets + 1 }

/-! ## Channels -/

/-- A buffered Go channel `chan α`: capacity, buffered values (oldest first), closed flag. -/
structure Chan (α : Type) where
  cap : Nat
  buf : List α
  closed : Bool
deriving DecidableEq, Repr

/-- What a channel operation, or a call that consists of one, comes to: it completes with a
result, it stays blocked, or it panics. -/
inductive Outcome (σ : Type) where
  | done (result : σ)
  | blocked
  | panic
deriving DecidableEq, Repr

/-- The send `c <- t`: a panic on a closed channel; otherwise it completes when there is room
in the buffer and stays blocked when there is none.  (With `cap = 0` a send needs a waiting
receiver; the only receivers of `pool.tasks` are the `cap` worker loops, so there is none.) -/
def Chan.send {α : Type} (c : Chan α) (t : α) : Outcome (Chan α) :=
  if c.closed then Outcome.panic
  else if c.buf.length < c.cap then Outcome.done { c with buf := c.buf ++ [t] }
  else Outcome.blocked

/-- What a receive `<-c` comes to: the oldest buffered value and the channel without it; a
wait, on an open empty channel; or the zero value of the element type, at once, on a closed
empty channel. -/
inductive Received (α : Type) where
  | value (t : α) (c : Chan α)
  | blocked
  | zero
deriving DecidableEq, Repr

/-- The receive `<-c`. -/
def Chan.recv {α : Type} (c : Chan α) : Received α :=
  match c.buf with
  | t :: rest => Received.value t { c with buf := rest }
  | [] => if c.closed then Received.zero else Received.blocked

/-! ## `pool.go` -/

/-- The struct `Pool[Task]`.  `worker` is true when `pool.worker != nil`; `wg` is the
counter of the wait group. -/
structure Pool (α : Type) where
  worker : Bool
  tasks : Chan α
  wg : Nat
deriving DecidableEq, Repr

/-- The largest value of Go's `int`, taken to be 64 bits wide. -/
def maxInt : Int := 2 ^ 63 - 1

/-- The constructor `NewPool(worker, workersCount)`.  `none` is the panic of
`make(chan Task, workersCount)`, "size out of range": on a negative size and on a size above
`maxChan`, the largest buffer the runtime accepts for a channel of `Task` (it depends on the
size of `Task` and on the platform, hence a parameter).  A `workersCount` above `maxInt` is no
value of type `int`. -/
def NewPool {α : Type} (maxChan : Nat) (worker : Bool) (workersCount : Int) : Option (Pool α) :=
  if workersCount < 0 ∨ (maxChan : Int) < workersCount ∨ maxInt < workersCount then none
  else some { worker := worker
              tasks := { cap := workersCount.toNat, buf := [], closed := false }
              wg := 0 }

/-- The method `pool.WorkersCount()`: `cap(pool.tasks)`. -/
def Pool.WorkersCount {α : Type} (pool : Pool α) : Nat := pool.tasks.cap

/-- The method `pool.QueueSize()`: `len(pool.tasks)`. -/
def Pool.QueueSize {α : Type} (pool : Pool α) : Nat := pool.tasks.buf.length

/-- The method `pool.AddTask(task)`: the send `pool.tasks <- task`. -/
def Pool.AddTask {α : Type} (pool : Pool α) (task : α) : Outcome (Pool α) :=
  match pool.tasks.send task with
  | Outcome.done c => Outcome.done { pool with tasks := c }
  | Outcome.blocked => Outcome.blocked
  | Outcome.panic => Outcome.panic

/-- The method `pool.Close()`: `pool.wg.Wait()` blocks while the counter is not zero; then
`close(pool.tasks)` closes the channel, and panics on a channel already closed. -/
def Pool.Close {α : Type} (pool : Pool α) : Outcome (Pool α) :=
  if pool.wg = 0 then
    if pool.tasks.closed then Outcome.panic
    else Outcome.done { pool with tasks := { pool.tasks with closed := true } }
  else Outcome.blocked

/-- The goroutines a `Start` launches with `go`. -/
inductive Goroutine where
  | workerLoop
  | pollingLoop
deriving DecidableEq, Repr

/-- The loop `for i := 0; i < pool.WorkersCount(); i++ { pool.wg.Add(1); go pool.start(ctx) }`,
by recursion on the number of iterations left. -/
def Pool.spawnWorkers {α : Type} : Nat → Pool α → Pool α × List Goroutine
  | 0, pool => (pool, [])
  | k + 1, pool =>
    let r := Pool.spawnWorkers k { pool with wg := pool.wg + 1 }
    (r.1, Goroutine.workerLoop :: r.2)

/-- The method `pool.Start(ctx)`: the pool afterwards and the goroutines launched. -/
def Pool.Start {α : Type} (pool : Pool α) : Pool α × List Goroutine :=
  if pool.worker = false then (pool, [])
  else Pool.spawnWorkers pool.WorkersCount pool

/-! ## `timed_pool.go` -/

/-- The struct `TimedPool[Task]`; `dispatcher` and `errorHandler` are true when the
callback is non-nil; `periodReceivingTasks` is a duration in nanoseconds. -/
structure TimedPool (α : Type) where
  pool : Pool α
  dispatcher : Bool
  errorHandler : Bool
  periodReceivingTasks : Int
deriving DecidableEq, Repr

/-- The constructor `NewTimedPool(dispatcher, worker, errorHandler, workersCount,
periodReceivingTasks)`: the period, given in milliseconds, becomes a duration in nanoseconds. -/
def NewTimedPool {α : Type} (maxChan : Nat) (dispatcher worker errorHandler : Bool)
    (workersCount periodReceivingTasks : Int) : Option (TimedPool α) :=
  match NewPool maxChan worker workersCount with
  | none => none
  | some p => some { pool := p
                     dispatcher := dispatcher
                     errorHandler := errorHandler
                     periodReceivingTasks := wrap64 (Millisecond * wrap64 periodReceivingTasks) }

/-- The method `TimedPool.Start(ctx)`: the pool afterwards and the goroutines launched. -/
def TimedPool.Start {α : Type} (tp : TimedPool α) : TimedPool α × List Goroutine :=
  if tp.dispatcher = false then (tp, [])
  else
    let r := tp.pool.Start
    ({ tp with pool := { r.1 with wg := r.1.wg + 1 } }, r.2 ++ [Goroutine.pollingLoop])

/-- Which way `tick` goes once the dispatcher has returned `(tasks, err)` (lines 77-88). -/
inductive TickHead (α ε : Type) where
  | handled (e : ε)
  | backoff
  | submit (tasks : List α)
deriving DecidableEq, Repr

/-- The two `if`s at the head of `tick`: `err != nil && pool.errorHandler != nil`, then
`len(tasks) == 0`. -/
def tickHead {α ε : Type} (tp : TimedPool α) (tasks : List α) (err : Option ε) : TickHead α ε :=
  match err, tp.errorHandler with
  | some e, true => TickHead.handled e
  | _, _ => if tasks.length = 0 then TickHead.backoff else TickHead.submit tasks

/-- How the loop over the batch in `tick` ends: every task was sent; a check saw the context
cancelled and `tick` returned; or a send on the full channel never completes. -/
inductive LoopEnd where
  | finished
  | cancelled
  | blocked
deriving DecidableEq, Repr

/-- The loop `for i := range tasks { select { case <-ctx.Done(): return; default: AddTask(tasks[i]) } }`
started at index `i`.  Whether `ctx.Done()` is ready at iteration `j` is `done j`; whether the
send of iteration `j` ever finds room in the channel is `room j`.  Returns the tasks whose send
completed and how the loop ended. -/
def submitLoop {α : Type} (done room : Nat → Bool) : List α → Nat → List α × LoopEnd
  | [], _ => ([], LoopEnd.finished)
  | t :: rest, i =>
    if done i then ([], LoopEnd.cancelled)
    else if room i then
      let r := submitLoop done room rest (i + 1)
      (t :: r.1, r.2)
    else ([], LoopEnd.blocked)

/-- How a call of `tick` ends: it returns, it panics, or it stays blocked in `AddTask`. -/
inductive TickEnd where
  | returned
  | panicked
  | blocked
deriving DecidableEq, Repr

/-- What one call of `tick` did: the errors passed to the error handler, the tasks enqueued,
the ticker afterwards, and how the call ended. -/
structure TickResult (α ε : Type) where
  hookCalls : List ε
  submitted : List α
  ticker : Ticker
  ending : TickEnd
deriving DecidableEq, Repr

/-- The call `pool.tick(ctx, ticker)` where the dispatcher returns `(tasks, err)`. -/
def tick {α ε : Type} (tp : TimedPool α) (ticker : Ticker) (tasks : List α) (err : Option ε)
    (done room : Nat → Bool) : TickResult α ε :=
  match tickHead tp tasks err with
  | TickHead.handled e =>
    { hookCalls := [e], submitted := [], ticker := ticker, ending := TickEnd.returned }
  | TickHead.backoff =>
    match ticker.Reset (wrap64 (tp.periodReceivingTasks * 10)) with
    | some t => { hookCalls := [], submitted := [], ticker := t, ending := TickEnd.returned }
    | none => { hookCalls := [], submitted := [], ticker := ticker, ending := TickEnd.panicked }
  | TickHead.submit ts =>
    let r := submitLoop done room ts 0
    match r.2 with
    | LoopEnd.finished =>
      match ticker.Reset tp.periodReceivingTasks with
      | some t => { hookCalls := [], submitted := r.1, ticker := t, ending := TickEnd.returned }
      | none =>
        { hookCalls := [], submitted := r.1, ticker := ticker, ending := TickEnd.panicked }
    | LoopEnd.cancelled =>
      { hookCalls := [], submitted := r.1, ticker := ticker, ending := TickEnd.returned }
    | LoopEnd.blocked =>
      { hookCalls := [], submitted := r.1, ticker := ticker, ending := TickEnd.blocked }

/-! ## The running pool as a transition system

The goroutines of a started pool take turns; one turn is an `Action`.  The owner's moves
(`Start`, cancelling the context, `AddTask` from outside, `Close`) and the runtime's timer
are actions too.  Per the lifecycle, a pool is started once, and nothing is modelled after
`Close` has returned or after a panic. -/

/-- Where a worker loop `pool.start` stands: at its `select`, inside `pool.worker(ctx, task)`,
or returned. -/
inductive WorkerPc (α : Type) where
  | wait
  | running (task : α)
  | exited
deriving DecidableEq, Repr

/-- Where the polling loop `pool.dispatch` stands: launched (before `NewTicker` and the first
tick), at its `select`, at the `select` inside the loop of `tick` with `rest` still to submit,
at the send of `task` (the `default` branch was taken), or returned. -/
inductive PollPc (α : Type) where
  | start
  | wait
  | submit (rest : List α)
  | sending (task : α) (rest : List α)
  | exited
deriving DecidableEq, Repr

/-- State of a pool and of its goroutines, with a history of what happened: the tasks whose
send on `pool.tasks` completed, the tasks passed to `pool.worker`, the errors passed to
`pool.errorHandler`, the number of dispatcher calls and of receives from `ticker.C`. -/
structure Sys (α ε : Type) where
  tp : TimedPool α
  started : Bool
  cancelled : Bool
  crashed : Bool
  workers : List (WorkerPc α)
  poller : Option (PollPc α)
  ticker : Option Ticker
  tickPending : Bool
  accepted : List α
  invoked : List α
  hookCalls : List ε
  dispatcherCalls : Nat
  timerTakes : Nat
deriving DecidableEq, Repr

/-- One turn of the system. -/
inductive Action (α ε : Type) where
  | startPool
  | startTimed
  | cancel
  | addTask (task : α)
  | timerFire
  | close
  | workerExit (i : Nat)
  | workerTake (i : Nat)
  | workerReturn (i : Nat)
  | pollFirst (tasks : List α) (err : Option ε)
  | pollTick (tasks : List α) (err : Option ε)
  | pollExit
  | pollCheck
  | pollSend
deriving DecidableEq, Repr

/-- The turns taken by a spawned loop (a worker loop or the polling loop). -/
def Action.isLoopStep {α ε : Type} : Action α ε → Bool
  | Action.workerExit _ => true
  | Action.workerTake _ => true
  | Action.workerReturn _ => true
  | Action.pollFirst _ _ => true
  | Action.pollTick _ _ => true
  | Action.pollExit => true
  | Action.pollCheck => true
  | Action.pollSend => true
  | _ => false

/-- A pool just constructed, nothing started. -/
def Sys.init {α ε : Type} (tp : TimedPool α) : Sys α ε :=
  { tp := tp, started := false, cancelled := false, crashed := false
    workers := [], poller := none, ticker := none, tickPending := false
    accepted := [], invoked := [], hookCalls := [], dispatcherCalls := 0, timerTakes := 0 }

/-- A plain `Pool` seen as a timed pool without dispatcher (started with `startPool`). -/
def Sys.ofPool {α ε : Type} (pool : Pool α) : Sys α ε :=
  Sys.init { pool := pool, dispatcher := false, errorHandler := false, periodReceivingTasks := 0 }

/-- The worker loops among launched goroutines, each at its `select`. -/
def spawnedWorkers {α : Type} : List Goroutine → List (WorkerPc α)
  | [] => []
  | Goroutine.workerLoop :: gs => WorkerPc.wait :: spawnedWorkers gs
  | Goroutine.pollingLoop :: gs => spawnedWorkers gs

/-- The polling loop among launched goroutines, if any. -/
def spawnedPoller {α : Type} : List Goroutine → Option (PollPc α)
  | [] => none
  | Goroutine.workerLoop :: gs => spawnedPoller gs
  | Goroutine.pollingLoop :: _ => some PollPc.start

/-- Replace the embedded `Pool`. -/
def Sys.setPool {α ε : Type} (s : Sys α ε) (pool : Pool α) : Sys α ε :=
  { s with tp := { s.tp with pool := pool } }

/-- The deferred `pool.wg.Done()` of a loop that returns. -/
def Sys.wgDone {α ε : Type} (s : Sys α ε) : Sys α ε :=
  s.setPool { s.tp.pool with wg := s.tp.pool.wg - 1 }

/-- A panic: the program stops where it is. -/
def Sys.crash {α ε : Type} (s : Sys α ε) : Sys α ε := { s with crashed := true }

/-- The call `ticker.Reset(d)` made by the polling loop. -/
def Sys.resetTicker {α ε : Type} (s : Sys α ε) (d : Int) : Sys α ε :=
  match s.ticker with
  | none => s.crash
  | some t =>
    match t.Reset d with
    | none => s.crash
    | some t1 => { s with ticker := some t1 }

/-- The head of `tick` (lines 77-88) once the dispatcher has returned `(tasks, err)`. -/
def Sys.tickBody {α ε : Type} (s : Sys α ε) (tasks : List α) (err : Option ε) : Sys α ε :=
  let s1 := { s with dispatcherCalls := s.dispatcherCalls + 1 }
  match tickHead s1.tp tasks err with
  | TickHead.handled e => { s1 with hookCalls := s1.hookCalls ++ [e], poller := some PollPc.wait }
  | TickHead.backoff =>
    ({ s1 with poller := some PollPc.wait }).resetTicker (wrap64 (s1.tp.periodReceivingTasks * 10))
  | TickHead.submit ts => { s1 with poller := some (PollPc.submit ts) }

/-- A call `pool.AddTask(task)` by some goroutine: when the send completes it is recorded in
the history; `none` while the send is blocked; a panic stops the program. -/
def Sys.enqueue {α ε : Type} (s : Sys α ε) (task : α) : Option (Sys α ε) :=
  match s.tp.pool.AddTask task with
  | Outcome.done p => some { s.setPool p with accepted := s.accepted ++ [task] }
  | Outcome.blocked => none
  | Outcome.panic => some s.crash

/-- An action from a live state; `none` when the action cannot happen there (wrong place,
or a blocked channel operation or `Wait`).  The worker actions are the loop of `Pool.start`
(pool.go 51-62), the polling actions are `TimedPool.dispatch` and `TimedPool.tick`
(timed_pool.go 57-97). -/
def stepLive {α ε : Type} (s : Sys α ε) : Action α ε → Option (Sys α ε)
  -- the owner calls `pool.Pool.Start(ctx)`
  | Action.startPool =>
    if s.started then none
    else
      let r := s.tp.pool.Start
      some { s.setPool r.1 with started := true, workers := spawnedWorkers r.2
                                poller := spawnedPoller r.2 }
  -- the owner calls `pool.Start(ctx)` of the timed pool
  | Action.startTimed =>
    if s.started then none
    else
      let r := s.tp.Start
      some { s with tp := r.1, started := true, workers := spawnedWorkers r.2
                    poller := spawnedPoller r.2 }
  -- the owner cancels the context: `ctx.Done()` is ready from now on
  | Action.cancel => some { s with cancelled := true }
  -- a caller's `pool.AddTask(task)` completes
  | Action.addTask task => s.enqueue task
  -- the runtime puts a tick on `ticker.C`
  | Action.timerFire =>
    match s.ticker with
    | none => none
    | some _ => some { s with tickPending := true }
  -- the owner's `pool.Close()` returns
  | Action.close =>
    match s.tp.pool.Close with
    | Outcome.done p => some (s.setPool p)
    | Outcome.blocked => none
    | Outcome.panic => some s.crash
  -- worker `i`, at its `select`, takes `case <-ctx.Done(): return`
  | Action.workerExit i =>
    match s.workers[i]? with
    | some WorkerPc.wait =>
      if s.cancelled then some ({ s with workers := s.workers.set i WorkerPc.exited }).wgDone
      else none
    | _ => none
  -- worker `i`, at its `select`, takes `case task := <-pool.tasks: pool.worker(ctx, task)`
  | Action.workerTake i =>
    match s.workers[i]? with
    | some WorkerPc.wait =>
      match s.tp.pool.tasks.recv with
      | Received.value task c =>
        some { s.setPool { s.tp.pool with tasks := c } with
               workers := s.workers.set i (WorkerPc.running task)
               invoked := s.invoked ++ [task] }
      | Received.blocked => none
      -- a closed channel is not met here: `step` allows no action once `Close` has returned
      | Received.zero => none
    | _ => none
  -- the call `pool.worker(ctx, task)` of worker `i` returns; back to the `select`
  | Action.workerReturn i =>
    match s.workers[i]? with
    | some (WorkerPc.running _) => some { s with workers := s.workers.set i WorkerPc.wait }
    | _ => none
  -- `dispatch` begins: `time.NewTicker(pool.periodReceivingTasks)`, then the first `tick`,
  -- whose dispatcher call returns `(tasks, err)`
  | Action.pollFirst tasks err =>
    match s.poller with
    | some PollPc.start =>
      match NewTicker s.tp.periodReceivingTasks with
      | none => some s.crash
      | some t => some (({ s with ticker := some t }).tickBody tasks err)
    | _ => none
  -- `dispatch`, at its `select`, takes `case <-ticker.C: pool.tick(ctx, ticker)`
  | Action.pollTick tasks err =>
    match s.poller with
    | some PollPc.wait =>
      if s.tickPending then
        some (({ s with tickPending := false, timerTakes := s.timerTakes + 1 }).tickBody tasks err)
      else none
    | _ => none
  -- `dispatch`, at its `select`, takes `case <-ctx.Done(): return` (with the deferred
  -- `ticker.Stop()` and `pool.wg.Done()`)
  | Action.pollExit =>
    match s.poller with
    | some PollPc.wait =>
      if s.cancelled then some ({ s with poller := some PollPc.exited, ticker := none }).wgDone
      else none
    | _ => none
  -- `tick`, in its loop: `select { case <-ctx.Done(): return; default: ... }`
  | Action.pollCheck =>
    match s.poller with
    | some (PollPc.submit (task :: rest)) =>
      if s.cancelled then some { s with poller := some PollPc.wait }
      else some { s with poller := some (PollPc.sending task rest) }
    | _ => none
  -- `tick`, in its loop: `pool.Pool.AddTask(tasks[i])` completes; after the last task,
  -- `ticker.Reset(pool.periodReceivingTasks)`
  | Action.pollSend =>
    match s.poller with
    | some (PollPc.sending task rest) =>
      match s.enqueue task with
      | none => none
      | some s1 =>
        match rest with
        | [] => some (({ s1 with poller := some PollPc.wait }).resetTicker s1.tp.periodReceivingTasks)
        | _ :: _ => some { s1 with poller := some (PollPc.submit rest) }
    | _ => none

/-- One action.  Nothing happens after a panic or after `Close` has returned. -/
def step {α ε : Type} (s : Sys α ε) (a : Action α ε) : Option (Sys α ε) :=
  if s.crashed || s.tp.pool.tasks.closed then none else stepLive s a

/-- A sequence of actions, each enabled in turn. -/
def run {α ε : Type} (s : Sys α ε) : List (Action α ε) → Option (Sys α ε)
  | [] => some s
  | a :: as =>
    match step s a with
    | none => none
    | some s1 => run s1 as

/-- The states the pool `s0` can get to. -/
def Reachable {α ε : Type} (s0 s : Sys α ε) : Prop := ∃ as, run s0 as = some s

/-! ## Loops that have not returned -/

/-- One for a worker loop that has not returned, zero for one that has. -/
def WorkerPc.live {α : Type} : WorkerPc α → Nat
  | WorkerPc.exited => 0
  | _ => 1

/-- The number of worker loops that have not returned. -/
def liveWorkers {α : Type} : List (WorkerPc α) → Nat
  | [] => 0
  | w :: ws => w.live + liveWorkers ws

/-- One when the polling loop was launched and has not returned, zero otherwise. -/
def livePoller {α : Type} : Option (PollPc α) → Nat
  | none => 0
  | some PollPc.exited => 0
  | some _ => 1

/-- The number of spawned loops that have not returned. -/
def Sys.liveLoops {α ε : Type} (s : Sys α ε) : Nat := liveWorkers s.workers + livePoller s.poller

/-- The wait group counts the spawned loops that have not returned; the channel is closed only
once that count is zero; nothing is spawned before `Start`. -/
def WgInv {α ε : Type} (s : Sys α ε) : Prop :=
  s.tp.pool.wg = s.liveLoops ∧ (s.tp.pool.tasks.closed = true → s.tp.pool.wg = 0) ∧
    (s.started = false → s.workers = [] ∧ s.poller = none)

/-! ## Repeated ticks and sample pools -/

/-- The ticker after `k` ticks in a row on which the dispatcher returns `([], nil)`. -/
def emptyTicks {α : Type} (tp : TimedPool α) (done room : Nat → Bool) : Nat → Ticker → Ticker
  | 0, tk => tk
  | k + 1, tk =>
    emptyTicks tp done room k (tick tp tk ([] : List α) (none : Option Unit) done room).ticker

/-- The pool `NewTimedPool(dispatcher, worker, nil, 1, 100)`: one worker, no error handler,
base interval 100 ms. -/
def demoTimed : TimedPool Nat :=
  { pool := { worker := true, tasks := { cap := 1, buf := [], closed := false }, wg := 0 }
    dispatcher := true, errorHandler := false, periodReceivingTasks := 100000000 }

/-- The pool `NewTimedPool(dispatcher, worker, errorHandler, 1, 100)`. -/
def demoHooked : TimedPool Nat :=
  { pool := { worker := true, tasks := { cap := 1, buf := [], closed := false }, wg := 0 }
    dispatcher := true, errorHandler := true, periodReceivingTasks := 100000000 }

/-- The pool `NewTimedPool(dispatcher, worker, nil, 1, 1000000000000)`: a base interval of
10^12 ms, that is 10^18 ns, which fits a 64-bit duration while ten times it does not. -/
def demoHuge : TimedPool Nat :=
  { pool := { worker := true, tasks := { cap := 1, buf := [], closed := false }, wg := 0 }
    dispatcher := true, errorHandler := false, periodReceivingTasks := 1000000000000000000 }

/-- A ticker of period 100 ms, never reset. -/
def demoTicker : Ticker := { period := 100000000, resets := 0 }

/-- No cancellation is ever observed. -/
def neverDone : Nat → Bool := fun _ => false

/-- Every send finds room in the queue. -/
def alwaysRoom : Nat → Bool := fun _ => true

/-- Only the first send finds room in the queue. -/
def roomForOne : Nat → Bool := fun i => decide (i < 1)

/-- Cancellation is observed from the third check on (index 2). -/
def doneFromThird : Nat → Bool := fun i => decide (2 ≤ i)

/-- The pool `NewPool(worker, 3)`. -/
def demoPool3 : Pool Nat :=
  { worker := true, tasks := { cap := 3, buf := [], closed := false }, wg := 0 }

/-- Three workers, ten tasks added while the workers drain the queue, then cancellation and the
exit of every worker. -/
def demoTrace3 : List (Action Nat Nat) :=
  [Action.startPool,
    Action.addTask 1, Action.addTask 2, Action.addTask 3,
    Action.workerTake 0, Action.workerTake 1, Action.workerTake 2,
    Action.addTask 4, Action.addTask 5, Action.addTask 6,
    Action.workerReturn 0, Action.workerReturn 1, Action.workerReturn 2,
    Action.workerTake 0, Action.workerTake 1, Action.workerTake 2,
    Action.addTask 7, Action.addTask 8, Action.addTask 9,
    Action.workerReturn 0, Action.workerReturn 1, Action.workerReturn 2,
    Action.workerTake 0, Action.workerTake 1, Action.workerTake 2,
    Action.addTask 10,
    Action.workerReturn 0, Action.workerTake 0,
    Action.workerReturn 0, Action.workerReturn 1, Action.workerReturn 2,
    Action.cancel,
    Action.workerExit 0, Action.workerExit 1, Action.workerExit 2]

/-- The state at the end of `demoTrace3`. -/
def demoFinal3 : Sys Nat Nat :=
  { tp := { pool := { worker := true, tasks := { cap := 3, buf := [], closed := false }, wg := 0 }
            dispatcher := false, errorHandler := false, periodReceivingTasks := 0 }
    started := true, cancelled := true, crashed := false
    workers := [WorkerPc.exited, WorkerPc.exited, WorkerPc.exited]
    poller := none, ticker := none, tickPending := false
    accepted := [1, 2, 3, 4, 5, 6, 7, 8, 9, 10]
    invoked := [1, 2, 3, 4, 5, 6, 7, 8, 9, 10]
    hookCalls := [], dispatcherCalls := 0, timerTakes := 0 }

/-- Three tasks fill the queue of `demoPool3` before any worker takes one. -/
def demoFull3 : Sys Nat Nat :=
  { tp := { pool := { worker := true, tasks := { cap := 3, buf := [1, 2, 3], closed := false }
                      wg := 3 }
            dispatcher := false, errorHandler := false, periodReceivingTasks := 0 }
    started := true, cancelled := false, crashed := false
    workers := [WorkerPc.wait, WorkerPc.wait, WorkerPc.wait]
    poller := none, ticker := none, tickPending := false
    accepted := [1, 2, 3], invoked := []
    hookCalls := [], dispatcherCalls := 0, timerTakes := 0 }

/-- One worker, task `7` added, then cancellation: the worker is at its `select` with both the
cancellation and a task ready. -/
def demoCancelled : Sys Nat Nat :=
  { tp := { pool := { worker := true, tasks := { cap := 1, buf := [7], closed := false }, wg := 1 }
            dispatcher := true, errorHandler := false, periodReceivingTasks := 100000000 }
    started := true, cancelled := true, crashed := false
    workers := [WorkerPc.wait]
    poller := none, ticker := none, tickPending := false
    accepted := [7], invoked := []
    hookCalls := [], dispatcherCalls := 0, timerTakes := 0 }

/-- Bookkeeping of the polling loop, for a base interval `p0`: the base interval never changes;
before the first tick no dispatcher call and no receive from `ticker.C` has happened; from the
first tick on there is one more dispatcher call than receives from `ticker.C`; a panic is never
left at the start of the loop; no polling loop exists before `Start`. -/
def PollInv {α ε : Type} (p0 : Int) (s : Sys α ε) : Prop :=
  s.tp.periodReceivingTasks = p0 ∧
    ((s.poller = none ∨ s.poller = some PollPc.start) →
      s.dispatcherCalls = 0 ∧ s.timerTakes = 0) ∧
    (∀ pc, s.poller = some pc → pc ≠ PollPc.start → s.dispatcherCalls = s.timerTakes + 1) ∧
    (s.crashed = true → s.poller ≠ some PollPc.start) ∧
    (s.started = false → s.poller = none)

/-- The timed pool `demoTimed` after: start, a first tick with the batch `[1, 2]`, task `1` sent,
the check before task `2` passed, then cancellation and the exit of the only worker.  The
polling loop is at the send of task `2` and the queue is full. -/
def demoStuck : Sys Nat Nat :=
  { tp := { pool := { worker := true, tasks := { cap := 1, buf := [1], closed := false }, wg := 1 }
            dispatcher := true, errorHandler := false, periodReceivingTasks := 100000000 }
    started := true, cancelled := true, crashed := false
    workers := [WorkerPc.exited]
    poller := some (PollPc.sending 2 [])
    ticker := some { period := 100000000, resets := 0 }, tickPending := false
    accepted := [1], invoked := []
    hookCalls := [], dispatcherCalls := 1, timerTakes := 0 }

/-- The actions that lead to `demoStuck`. -/
def demoStuckTrace : List (Action Nat Nat) :=
  [Action.startTimed, Action.pollFirst [1, 2] none, Action.pollCheck, Action.pollSend,
    Action.pollCheck, Action.cancel, Action.workerExit 0]

/-- The timed pool `demoTimed` after three ticks (empty, `[5]`, empty), two of them driven by
the timer. -/
def demoPolled : Sys Nat Nat :=
  { tp := { pool := { worker := true, tasks := { cap := 1, buf := [5], closed := false }, wg := 2 }
            dispatcher := true, errorHandler := false, periodReceivingTasks := 100000000 }
    started := true, cancelled := false, crashed := false
    workers := [WorkerPc.wait]
    poller := some PollPc.wait
    ticker := some { period := 1000000000, resets := 3 }, tickPending := false
    accepted := [5], invoked := []
    hookCalls := [], dispatcherCalls := 3, timerTakes := 2 }

/-- The actions that lead to `demoPolled`. -/
def demoPolledTrace : List (Action Nat Nat) :=
  [Action.startTimed, Action.pollFirst [] none, Action.timerFire, Action.pollTick [5] none,
    Action.pollCheck, Action.pollSend, Action.timerFire, Action.pollTick [] none]

/-- The state `demoStuck` after one more timer fire. -/
def demoStuckTicked : Sys Nat Nat := { demoStuck with tickPending := true }

/-- The polling loop going through `k` tasks of its batch on its own: for each one the check
of cancellation, then the send. -/
def batchActions {α ε : Type} : Nat → List (Action α ε)
  | 0 => []
  | k + 1 => Action.pollCheck :: Action.pollSend :: batchActions k

/-- The state `s` after the polling loop has enqueued `sent` and stands at place `pc`. -/
def Sys.afterSends {α ε : Type} (s : Sys α ε) (sent : List α) (pc : PollPc α) : Sys α ε :=
  { s with tp := { s.tp with pool := { s.tp.pool with
                    tasks := { s.tp.pool.tasks with buf := s.tp.pool.tasks.buf ++ sent } } }
           accepted := s.accepted ++ sent
           poller := some pc }

/-! ## The tick in progress, read off a run -/

/-- What a run shows of the tick in progress (or of the last tick, once it is over): the batch
that the tick has to submit, and the tasks of it whose send by the polling loop has completed,
in the order of the sends. -/
structure TickLog (α : Type) where
  batch : List α
  sent : List α
deriving DecidableEq, Repr

/-- The log of a tick that begins with the dispatcher returning `(tasks, err)`: its batch, when
`tick` goes on to the loop over the batch, and nothing sent yet. -/
def TickLog.begin {α ε : Type} (s : Sys α ε) (tasks : List α) (err : Option ε) : TickLog α :=
  match tickHead s.tp tasks err with
  | TickHead.submit b => { batch := b, sent := [] }
  | _ => { batch := [], sent := [] }

/-- The log after the action `a` has been taken in the state `s`: a tick begins a new log, and
a send of the polling loop adds the task sent to it. -/
def TickLog.record {α ε : Type} (log : TickLog α) (s : Sys α ε) : Action α ε → TickLog α
  | Action.pollFirst tasks err => TickLog.begin s tasks err
  | Action.pollTick tasks err => TickLog.begin s tasks err
  | Action.pollSend =>
    match s.poller with
    | some (PollPc.sending task _) => { log with sent := log.sent ++ [task] }
    | _ => log
  | _ => log

/-- A sequence of actions, each enabled in turn, together with the log of the tick. -/
def runLog {α ε : Type} (s : Sys α ε) (log : TickLog α) :
    List (Action α ε) → Option (Sys α ε × TickLog α)
  | [] => some (s, log)
  | a :: as =>
    match step s a with
    | none => none
    | some s1 => runLog s1 (log.record s a) as

/-- The loop over the batch and the log agree: what was sent is an initial segment of the
batch; at a check the tasks still to submit are the rest of the batch, and they are not none; at
a send the task being sent and the tasks after it are the rest of the batch; the tasks sent are
in the queue's history, in order; the ticker exists while the polling loop runs; a panic leaves
the polling loop at its start or at its wait. -/
def TickInv {α ε : Type} (s : Sys α ε) (log : TickLog α) : Prop :=
  (∃ k, k ≤ log.batch.length ∧ log.sent = log.batch.take k) ∧
    (∀ rest, s.poller = some (PollPc.submit rest) →
      rest ≠ [] ∧ log.batch = log.sent ++ rest) ∧
    (∀ t rest, s.poller = some (PollPc.sending t rest) → log.batch = log.sent ++ t :: rest) ∧
    log.sent.Sublist s.accepted ∧
    (∀ pc, s.poller = some pc → pc ≠ PollPc.start → pc ≠ PollPc.exited → s.ticker ≠ none) ∧
    (s.crashed = true → s.poller = some PollPc.wait ∨ s.poller = some PollPc.start)

/-- The pool `NewTimedPool(dispatcher, nil, nil, 1, 100)`: no worker function, so `Start`
launches the polling loop only. -/
def demoNoWorker : TimedPool Nat :=
  { pool := { worker := false, tasks := { cap := 1, buf := [], closed := false }, wg := 0 }
    dispatcher := true, errorHandler := false, periodReceivingTasks := 100000000 }

/-- The pool `demoNoWorker` after: start, a first tick with the batch `[1, 2]`, task `1` sent
and the check before task `2` passed.  The polling loop is at the send of task `2`, the queue is
full, and the context is not cancelled. -/
def demoWaiting : Sys Nat Nat :=
  { tp := { pool := { worker := false, tasks := { cap := 1, buf := [1], closed := false }
                      wg := 1 }
            dispatcher := true, errorHandler := false, periodReceivingTasks := 100000000 }
    started := true, cancelled := false, crashed := false
    workers := []
    poller := some (PollPc.sending 2 [])
    ticker := some { period := 100000000, resets := 0 }, tickPending := false
    accepted := [1], invoked := []
    hookCalls := [], dispatcherCalls := 1, timerTakes := 0 }

/-- The state `demoWaiting` after states reachable from it: the timer may have fired and the
context may have been cancelled. -/
def demoWaitingLater (pending cancelled : Bool) : Sys Nat Nat :=
  { demoWaiting with tickPending := pending, cancelled := cancelled }

/-- The actions that lead to `demoWaiting`. -/
def demoWaitingTrace : List (Action Nat Nat) :=
  [Action.startTimed, Action.pollFirst [1, 2] none, Action.pollCheck, Action.pollSend,
    Action.pollCheck]

/-- The pool `demoTimed` after: start, a first tick with the batch `[1, 2]`, task `1` sent and
taken by the worker, and the check before task `2` passed.  The polling loop is at the send of
task `2` and the queue has room. -/
def demoSending : Sys Nat Nat :=
  { tp := { pool := { worker := true, tasks := { cap := 1, buf := [], closed := false }, wg := 2 }
            dispatcher := true, errorHandler := false, periodReceivingTasks := 100000000 }
    started := true, cancelled := false, crashed := false
    workers := [WorkerPc.running 1]
    poller := some (PollPc.sending 2 [])
    ticker := some { period := 100000000, resets := 0 }, tickPending := false
    accepted := [1], invoked := [1]
    hookCalls := [], dispatcherCalls := 1, timerTakes := 0 }

/-- The actions that lead to `demoSending`. -/
def demoSendingTrace : List (Action Nat Nat) :=
  [Action.startTimed, Action.pollFirst [1, 2] none, Action.pollCheck, Action.pollSend,
    Action.workerTake 0, Action.pollCheck]

end Workerpool

/-! ## Theorems: one call of `tick` -/

namespace Workerpool

theorem wrap64_of_fits (x : Int) (hlo : -(2 ^ 63) ≤ x) (hhi : x < 2 ^ 63) : wrap64 x = x := by
  unfold wrap64
  omega

theorem demoTimed_constructed : NewTimedPool 1024 true true false 1 100 = some demoTimed := by
  decide

theorem demoHooked_constructed : NewTimedPool 1024 true true true 1 100 = some demoHooked := by
  decide

/-- The constructor panics on a negative worker count and on one above what `make` accepts. -/
theorem newPool_out_of_range :
    (NewPool 1024 true (-1) : Option (Pool Nat)) = none ∧
      (NewPool 1024 true 1025 : Option (Pool Nat)) = none ∧
      (NewPool (2 ^ 70) true (2 ^ 63) : Option (Pool Nat)) = none ∧
      (NewPool 1024 true 0 : Option (Pool Nat)) =
        some { worker := true, tasks := { cap := 0, buf := [], closed := false }, wg := 0 } := by
  decide

theorem tickHead_hook {α ε : Type} (tp : TimedPool α) (tasks : List α) (e : ε)
    (h : tp.errorHandler = true) : tickHead tp tasks (some e) = TickHead.handled e := by
  simp [tickHead, h]

theorem tickHead_ok_nil {α ε : Type} (tp : TimedPool α) :
    tickHead tp ([] : List α) (none : Option ε) = TickHead.backoff := by
  simp [tickHead]

theorem tickHead_ok_cons {α ε : Type} (tp : TimedPool α) (t : α) (ts : List α) :
    tickHead tp (t :: ts) (none : Option ε) = TickHead.submit (t :: ts) := by
  simp [tickHead]

/-- When every send finds room, the loop over the batch hands over an initial segment: it stops
at the first index whose check observes cancellation, and finishes when there is none. -/
theorem submitLoop_spec {α : Type} (done room : Nat → Bool) (ts : List α) (i : Nat)
    (hroom : ∀ j, j < ts.length → room (i + j) = true) :
    ∃ k, k ≤ ts.length ∧ (∀ j, j < k → done (i + j) = false) ∧
      (submitLoop done room ts i).1 = ts.take k ∧
      (k = ts.length → (submitLoop done room ts i).2 = LoopEnd.finished) ∧
      (k < ts.length → done (i + k) = true ∧
        (submitLoop done room ts i).2 = LoopEnd.cancelled) := by
  induction ts generalizing i with
  | nil => exact ⟨0, by simp [submitLoop]⟩
  | cons t rest ih =>
    by_cases hd : done i = true
    · exact ⟨0, by simp [submitLoop, hd]⟩
    · have hr0 : room i = true := by simpa using hroom 0 (by simp)
      obtain ⟨k, hk, hbefore, htake, hfull, hstop⟩ := ih (i + 1) (fun j hj => by
        have := hroom (j + 1) (by simpa using hj)
        rwa [show i + (j + 1) = i + 1 + j by omega] at this)
      refine ⟨k + 1, by simpa using hk, ?_, ?_, ?_, ?_⟩
      · intro j hj
        cases j with
        | zero => simpa using hd
        | succ j =>
          have := hbefore j (by omega)
          rwa [show i + (j + 1) = i + 1 + j by omega]
      · simp [submitLoop, hd, hr0, htake]
      · intro hkn
        simp [submitLoop, hd, hr0, hfull (by simpa using hkn)]
      · intro hlt
        have := hstop (by simpa using hlt)
        rw [show i + (k + 1) = i + 1 + k by omega]
        exact ⟨this.1, by simp [submitLoop, hd, hr0, this.2]⟩

end Workerpool

namespace Workerpool

/-- With no error hook the error plays no part: the tick goes on exactly as if the
dispatcher had succeeded with the same tasks. -/
theorem tick_error_no_hook {α ε : Type} (tp : TimedPool α) (tk : Ticker) (tasks : List α)
    (e : ε) (done room : Nat → Bool) (h : tp.errorHandler = false) :
    tick tp tk tasks (some e) done room = tick tp tk tasks (none : Option ε) done room := by
  simp [tick, tickHead, h]

/-- C1, the code at the failing input: the pool has no error hook and the dispatcher returns
the error `3`.  With the task list `[7]` the tick submits task `7` and resets the ticker; with an
empty task list it resets the ticker to ten times the base interval.  The same tick inside the
running pool puts task `7` in the queue and resets the ticker. -/
theorem tick_error_without_hook_goes_on :
    tick demoTimed demoTicker [7] (some 3) neverDone alwaysRoom =
        { hookCalls := [], submitted := [7]
          ticker := { period := 100000000, resets := 1 }, ending := TickEnd.returned } ∧
      tick demoTimed demoTicker [] (some 3) neverDone alwaysRoom =
        { hookCalls := [], submitted := []
          ticker := { period := 1000000000, resets := 1 }, ending := TickEnd.returned } ∧
      (run (Sys.init demoTimed : Sys Nat Nat)
          [Action.startTimed, Action.pollFirst [7] (some 3), Action.pollCheck,
            Action.pollSend]).map (fun s => (s.tp.pool.tasks.buf, s.ticker, s.hookCalls)) =
        some ([7], some { period := 100000000, resets := 1 }, []) := by
  decide

/-- C8: when the dispatcher returns an error and an error hook is configured, the hook is
called exactly once, with that error; no task is submitted, whatever task list comes with the
error; the ticker is not reset, so its period stays what it was; the tick returns.  In the
running pool that tick only counts the dispatcher call, logs the hook call and goes back to the
wait: pool, queue and ticker are unchanged. -/
theorem tick_error_with_hook {α ε : Type} (s : Sys α ε) (tk : Ticker) (tasks : List α) (e : ε)
    (done room : Nat → Bool) (h : s.tp.errorHandler = true) :
    tick s.tp tk tasks (some e) done room =
        { hookCalls := [e], submitted := [], ticker := tk, ending := TickEnd.returned } ∧
      s.tickBody tasks (some e) =
        { s with dispatcherCalls := s.dispatcherCalls + 1
                 hookCalls := s.hookCalls ++ [e]
                 poller := some PollPc.wait } := by
  constructor
  · simp [tick, tickHead_hook _ _ _ h]
  · simp [Sys.tickBody, tickHead_hook _ _ _ h]

theorem tick_error_with_hook_witness :
    tick (Sys.init demoHooked : Sys Nat Nat).tp demoTicker [7, 8] (some 3) neverDone
        alwaysRoom =
        { hookCalls := [3], submitted := [], ticker := demoTicker, ending := TickEnd.returned } ∧
      (Sys.init demoHooked : Sys Nat Nat).tickBody [7, 8] (some 3) =
        { (Sys.init demoHooked : Sys Nat Nat) with
            dispatcherCalls := (Sys.init demoHooked : Sys Nat Nat).dispatcherCalls + 1
            hookCalls := (Sys.init demoHooked : Sys Nat Nat).hookCalls ++ [3]
            poller := some PollPc.wait } :=
  tick_error_with_hook (Sys.init demoHooked) demoTicker [7, 8] 3 neverDone alwaysRoom
    (by decide)

/-- An empty successful tick resets the ticker to ten times the base interval, when that
product is a positive 64-bit duration. -/
theorem tick_empty {α ε : Type} (tp : TimedPool α) (tk : Ticker) (done room : Nat → Bool)
    (hpos : 0 < tp.periodReceivingTasks) (hfit : tp.periodReceivingTasks * 10 < 2 ^ 63) :
    tick tp tk ([] : List α) (none : Option ε) done room =
      { hookCalls := [], submitted := []
        ticker := { period := tp.periodReceivingTasks * 10, resets := tk.resets + 1 }
        ending := TickEnd.returned } := by
  have hw : wrap64 (tp.periodReceivingTasks * 10) = tp.periodReceivingTasks * 10 :=
    wrap64_of_fits _ (by omega) hfit
  have hnot : ¬ tp.periodReceivingTasks * 10 ≤ 0 := by omega
  simp [tick, tickHead_ok_nil, Ticker.Reset, hw, hnot]

/-- C2 as stated fails: two empty ticks in a row from the base interval 100 ms leave the ticker
at 1000 ms, which is ten times the base and not 100 ms × 10²; the second of them starts from an
interval of 1000 ms in effect and does not multiply it by ten.  With a base interval of
10^12 ms the product by ten overflows a 64-bit duration to a negative value and `Reset`
panics: the ticker is not reset at all. -/
theorem backoff_does_not_compound :
    (emptyTicks demoTimed neverDone alwaysRoom 2 demoTicker).period = 100000000 * 10 ∧
      (emptyTicks demoTimed neverDone alwaysRoom 2 demoTicker).period ≠ 100000000 * 10 ^ 2 ∧
      (emptyTicks demoTimed neverDone alwaysRoom 1 demoTicker).period = 1000000000 ∧
      (tick demoTimed (emptyTicks demoTimed neverDone alwaysRoom 1 demoTicker) ([] : List Nat)
          (none : Option Unit) neverDone alwaysRoom).ticker.period ≠
        10 * (emptyTicks demoTimed neverDone alwaysRoom 1 demoTicker).period ∧
      NewTimedPool 1024 true true false 1 1000000000000 = some demoHuge ∧
      tick demoHuge { period := 1000000000000000000, resets := 0 } ([] : List Nat)
          (none : Option Unit) neverDone alwaysRoom =
        { hookCalls := [], submitted := []
          ticker := { period := 1000000000000000000, resets := 0 }
          ending := TickEnd.panicked } := by
  decide

/-- C2, amended: on a tick where the dispatcher succeeds with zero tasks, the ticker is reset to
exactly ten times the configured base interval `periodReceivingTasks` (a field no tick changes),
whatever interval was in effect before, provided the base is positive and the product fits a
64-bit duration; so after any `k ≥ 1` empty ticks in a row the interval is `b * 10`.  In the
running pool the tick leaves the pool itself, and so its base interval, unchanged. -/
theorem backoff_from_base {α ε : Type} (s : Sys α ε) (tk : Ticker) (done room : Nat → Bool)
    (hpos : 0 < s.tp.periodReceivingTasks) (hfit : s.tp.periodReceivingTasks * 10 < 2 ^ 63) :
    tick s.tp tk ([] : List α) (none : Option ε) done room =
        { hookCalls := [], submitted := []
          ticker := { period := s.tp.periodReceivingTasks * 10, resets := tk.resets + 1 }
          ending := TickEnd.returned } ∧
      (∀ k, 1 ≤ k →
        (emptyTicks s.tp done room k tk).period = s.tp.periodReceivingTasks * 10) ∧
      (s.ticker = some tk →
        s.tickBody ([] : List α) (none : Option ε) =
          { s with dispatcherCalls := s.dispatcherCalls + 1
                   poller := some PollPc.wait
                   ticker := some { period := s.tp.periodReceivingTasks * 10
                                    resets := tk.resets + 1 } }) := by
  refine ⟨tick_empty s.tp tk done room hpos hfit, ?_, ?_⟩
  · intro k hk
    obtain ⟨m, rfl⟩ : ∃ m, k = m + 1 := ⟨k - 1, by omega⟩
    clear hk
    induction m generalizing tk with
    | zero => simp [emptyTicks, tick_empty s.tp tk done room hpos hfit]
    | succ m ih =>
      have := ih (tick s.tp tk ([] : List α) (none : Option Unit) done room).ticker
      simpa [emptyTicks] using this
  · intro htk
    have hw : wrap64 (s.tp.periodReceivingTasks * 10) = s.tp.periodReceivingTasks * 10 :=
      wrap64_of_fits _ (by omega) hfit
    have hnot : ¬ s.tp.periodReceivingTasks * 10 ≤ 0 := by omega
    simp [Sys.tickBody, tickHead_ok_nil, Sys.resetTicker, Ticker.Reset, htk, hw, hnot]

theorem backoff_from_base_witness :
    tick (Sys.init demoTimed : Sys Nat Nat).tp { period := 1000000000, resets := 1 }
        ([] : List Nat) (none : Option Nat) neverDone alwaysRoom =
        { hookCalls := [], submitted := []
          ticker := { period := 100000000 * 10, resets := 2 }, ending := TickEnd.returned } ∧
      (∀ k, 1 ≤ k →
        (emptyTicks demoTimed neverDone alwaysRoom k
            { period := 1000000000, resets := 1 }).period = 100000000 * 10) :=
  let h := backoff_from_base (Sys.init demoTimed : Sys Nat Nat)
    { period := 1000000000, resets := 1 } neverDone alwaysRoom (by decide) (by decide)
  ⟨h.1, h.2.1⟩

end Workerpool

namespace Workerpool

/-- One call of `tick` under the assumption that every send finds room: when the dispatcher
succeeds with a non-empty batch of `n` tasks and the base interval is positive, there is an
index `k ≤ n` such that no check before `k` observed cancellation and the tasks enqueued are
the first `k` tasks of the batch, in order; if `k = n` the ticker is reset once, to the base
interval; if `k < n` the check at index `k` observed cancellation and the ticker is left as it
was.  The call returns. -/
theorem tick_submits_initial_segment {α ε : Type} (tp : TimedPool α) (tk : Ticker)
    (tasks : List α) (done room : Nat → Bool) (hne : tasks ≠ [])
    (hpos : 0 < tp.periodReceivingTasks) (hroom : ∀ j, j < tasks.length → room j = true) :
    ∃ k, k ≤ tasks.length ∧ (∀ j, j < k → done j = false) ∧
      (tick tp tk tasks (none : Option ε) done room).submitted = tasks.take k ∧
      (tick tp tk tasks (none : Option ε) done room).hookCalls = [] ∧
      (tick tp tk tasks (none : Option ε) done room).ending = TickEnd.returned ∧
      (k = tasks.length →
        (tick tp tk tasks (none : Option ε) done room).ticker =
          { period := tp.periodReceivingTasks, resets := tk.resets + 1 }) ∧
      (k < tasks.length → done k = true ∧
        (tick tp tk tasks (none : Option ε) done room).ticker = tk) := by
  obtain ⟨t, ts, rfl⟩ : ∃ t ts, tasks = t :: ts := by
    cases tasks with
    | nil => exact absurd rfl hne
    | cons t ts => exact ⟨t, ts, rfl⟩
  obtain ⟨k, hk, hbefore, htake, hfull, hstop⟩ :=
    submitLoop_spec done room (t :: ts) 0 (fun j hj => by simpa using hroom j hj)
  have hnot : ¬ tp.periodReceivingTasks ≤ 0 := by omega
  have hcases : k = (t :: ts).length ∨ k < (t :: ts).length := by omega
  refine ⟨k, hk, fun j hj => by simpa using hbefore j hj, ?_, ?_, ?_, ?_, ?_⟩
  · rcases hcases with hkn | hlt
    · simp [tick, tickHead_ok_cons, Ticker.Reset, hnot, hfull hkn, htake]
    · simp [tick, tickHead_ok_cons, (hstop hlt).2, htake]
  · rcases hcases with hkn | hlt
    · simp [tick, tickHead_ok_cons, Ticker.Reset, hnot, hfull hkn]
    · simp [tick, tickHead_ok_cons, (hstop hlt).2]
  · rcases hcases with hkn | hlt
    · simp [tick, tickHead_ok_cons, Ticker.Reset, hnot, hfull hkn]
    · simp [tick, tickHead_ok_cons, (hstop hlt).2]
  · intro hkn
    simp [tick, tickHead_ok_cons, Ticker.Reset, hnot, hfull hkn]
  · intro hlt
    exact ⟨by simpa using (hstop hlt).1, by simp [tick, tickHead_ok_cons, (hstop hlt).2]⟩

/-- The spawning loop run `k` times adds `k` to the wait group and launches `k` worker loops. -/
theorem spawnWorkers_spec {α : Type} (k : Nat) (pool : Pool α) :
    Pool.spawnWorkers k pool =
      ({ pool with wg := pool.wg + k }, List.replicate k Goroutine.workerLoop) := by
  induction k generalizing pool with
  | zero => rfl
  | succ k ih =>
    simp only [Pool.spawnWorkers, ih, List.replicate_succ]
    congr 2
    omega

/-- What `Pool.Start` returns. -/
theorem pool_start_eq {α : Type} (p : Pool α) :
    p.Start =
      (if p.worker = true then
        ({ p with wg := p.wg + p.WorkersCount },
          List.replicate p.WorkersCount Goroutine.workerLoop)
      else (p, [])) := by
  cases hw : p.worker <;> simp [Pool.Start, hw, spawnWorkers_spec]

/-- C10: `Pool.Start` launches exactly `WorkersCount()` worker loops (adding as many to the wait
group) when a worker function is set, and nothing when it is unset.  `TimedPool.Start` launches
nothing and leaves the pool as it is when the dispatcher is unset, whatever the worker function;
otherwise it launches the worker loops of `Pool.Start` followed by exactly one polling loop, and
the wait group grows by the number of goroutines launched. -/
theorem start_spawn_counts {α : Type} (pool : Pool α) (tp : TimedPool α) :
    pool.Start =
        (if pool.worker = true then
          ({ pool with wg := pool.wg + pool.WorkersCount },
            List.replicate pool.WorkersCount Goroutine.workerLoop)
        else (pool, [])) ∧
      tp.Start.2 =
        (if tp.dispatcher = true then tp.pool.Start.2 ++ [Goroutine.pollingLoop] else []) ∧
      tp.Start.2.count Goroutine.pollingLoop = (if tp.dispatcher = true then 1 else 0) ∧
      tp.Start.2.count Goroutine.workerLoop =
        (if tp.dispatcher = true ∧ tp.pool.worker = true then tp.pool.WorkersCount else 0) ∧
      tp.Start.1.pool.wg = tp.pool.wg + tp.Start.2.length ∧
      (if tp.dispatcher = true then True else tp.Start = (tp, [])) := by
  have hp : ∀ p : Pool α, p.Start =
      (if p.worker = true then
        ({ p with wg := p.wg + p.WorkersCount },
          List.replicate p.WorkersCount Goroutine.workerLoop)
      else (p, [])) := pool_start_eq
  refine ⟨hp pool, ?_, ?_, ?_, ?_, ?_⟩
  · cases hd : tp.dispatcher <;> simp [TimedPool.Start, hd]
  · cases hd : tp.dispatcher <;> cases hw : tp.pool.worker <;>
      simp [TimedPool.Start, hd, hp, hw, List.count_replicate]
  · cases hd : tp.dispatcher <;> cases hw : tp.pool.worker <;>
      simp [TimedPool.Start, hd, hp, hw, List.count_replicate]
  · cases hd : tp.dispatcher <;> cases hw : tp.pool.worker <;>
      simp [TimedPool.Start, hd, hp, hw, Nat.add_assoc]
  · cases hd : tp.dispatcher <;> simp [TimedPool.Start, hd]

end Workerpool

/-! ## Theorems: the running pool -/

namespace Workerpool

theorem run_induction {α ε : Type} (P : Sys α ε → Prop)
    (hstep : ∀ s a s1, P s → step s a = some s1 → P s1) :
    ∀ (as : List (Action α ε)) (s0 s : Sys α ε), P s0 → run s0 as = some s → P s := by
  intro as
  induction as with
  | nil =>
    intro s0 s h0 h
    simp only [run, Option.some.injEq] at h
    exact h ▸ h0
  | cons a as ih =>
    intro s0 s h0 h
    simp only [run] at h
    cases hs : step s0 a with
    | none => simp [hs] at h
    | some s1 =>
      simp only [hs] at h
      exact ih s1 s (hstep s0 a s1 h0 hs) h

theorem reachable_induction {α ε : Type} (P : Sys α ε → Prop) (s0 : Sys α ε) (h0 : P s0)
    (hstep : ∀ s a s1, P s → step s a = some s1 → P s1) :
    ∀ s, Reachable s0 s → P s := by
  rintro s ⟨as, h⟩
  exact run_induction P hstep as s0 s h0 h

theorem run_append {α ε : Type} (as bs : List (Action α ε)) (s0 s1 s2 : Sys α ε)
    (h1 : run s0 as = some s1) (h2 : run s1 bs = some s2) : run s0 (as ++ bs) = some s2 := by
  induction as generalizing s0 with
  | nil =>
    simp only [run, Option.some.injEq] at h1
    simpa [h1] using h2
  | cons a as ih =>
    simp only [run, List.cons_append] at h1 ⊢
    cases hs : step s0 a with
    | none => simp [hs] at h1
    | some s =>
      simp only [hs] at h1 ⊢
      exact ih s h1

theorem step_live {α ε : Type} (s s1 : Sys α ε) (a : Action α ε) (h : step s a = some s1) :
    s.crashed = false ∧ s.tp.pool.tasks.closed = false ∧ stepLive s a = some s1 := by
  unfold step at h
  split at h
  · simp at h
  · rename_i hc
    simp only [Bool.or_eq_true, not_or, Bool.not_eq_true] at hc
    exact ⟨hc.1, hc.2, h⟩

theorem send_open {α : Type} (c : Chan α) (t : α) (h : c.closed = false) :
    c.send t =
      if c.buf.length < c.cap then Outcome.done { c with buf := c.buf ++ [t] }
      else Outcome.blocked := by
  simp [Chan.send, h]

theorem addTask_open {α : Type} (pool : Pool α) (t : α) (h : pool.tasks.closed = false) :
    pool.AddTask t =
      if pool.tasks.buf.length < pool.tasks.cap then
        Outcome.done { pool with tasks := { pool.tasks with buf := pool.tasks.buf ++ [t] } }
      else Outcome.blocked := by
  unfold Pool.AddTask
  rw [send_open _ _ h]
  by_cases hlt : pool.tasks.buf.length < pool.tasks.cap
  · rw [if_pos hlt, if_pos hlt]
  · rw [if_neg hlt, if_neg hlt]

theorem addTask_closed {α : Type} (pool : Pool α) (t : α) (h : pool.tasks.closed = true) :
    pool.AddTask t = Outcome.panic := by
  simp [Pool.AddTask, Chan.send, h]

theorem close_open {α : Type} (pool : Pool α) (h : pool.tasks.closed = false) :
    pool.Close =
      if pool.wg = 0 then
        Outcome.done { pool with tasks := { pool.tasks with closed := true } }
      else Outcome.blocked := by
  simp [Pool.Close, h]

theorem recv_cons {α : Type} (c : Chan α) (t : α) (rest : List α) (h : c.buf = t :: rest) :
    c.recv = Received.value t { c with buf := rest } := by
  simp [Chan.recv, h]

theorem recv_nil_open {α : Type} (c : Chan α) (h : c.buf = []) (hcl : c.closed = false) :
    c.recv = Received.blocked := by
  simp [Chan.recv, h, hcl]

theorem enqueue_open {α ε : Type} (s : Sys α ε) (t : α)
    (hcl : s.tp.pool.tasks.closed = false) :
    s.enqueue t =
      if s.tp.pool.tasks.buf.length < s.tp.pool.tasks.cap then
        some { s with tp := { s.tp with pool := { s.tp.pool with
                              tasks := { s.tp.pool.tasks with
                                         buf := s.tp.pool.tasks.buf ++ [t] } } }
                      accepted := s.accepted ++ [t] }
      else none := by
  unfold Sys.enqueue
  rw [addTask_open _ _ hcl]
  by_cases hlt : s.tp.pool.tasks.buf.length < s.tp.pool.tasks.cap
  · rw [if_pos hlt, if_pos hlt]
    rfl
  · rw [if_neg hlt, if_neg hlt]

theorem enqueue_some {α ε : Type} (s s1 : Sys α ε) (t : α)
    (hcl : s.tp.pool.tasks.closed = false) (h : s.enqueue t = some s1) :
    s.tp.pool.tasks.buf.length < s.tp.pool.tasks.cap ∧
      s1 = { s with tp := { s.tp with pool := { s.tp.pool with
                            tasks := { s.tp.pool.tasks with buf := s.tp.pool.tasks.buf ++ [t] } } }
                    accepted := s.accepted ++ [t] } := by
  rw [enqueue_open s t hcl] at h
  split at h
  · rename_i hlt
    simp only [Option.some.injEq] at h
    exact ⟨hlt, h.symm⟩
  · simp at h

@[simp] theorem resetTicker_tp {α ε : Type} (s : Sys α ε) (d : Int) :
    (s.resetTicker d).tp = s.tp := by
  unfold Sys.resetTicker; split
  · rfl
  · split <;> rfl

@[simp] theorem resetTicker_accepted {α ε : Type} (s : Sys α ε) (d : Int) :
    (s.resetTicker d).accepted = s.accepted := by
  unfold Sys.resetTicker; split
  · rfl
  · split <;> rfl

@[simp] theorem resetTicker_invoked {α ε : Type} (s : Sys α ε) (d : Int) :
    (s.resetTicker d).invoked = s.invoked := by
  unfold Sys.resetTicker; split
  · rfl
  · split <;> rfl

@[simp] theorem resetTicker_workers {α ε : Type} (s : Sys α ε) (d : Int) :
    (s.resetTicker d).workers = s.workers := by
  unfold Sys.resetTicker; split
  · rfl
  · split <;> rfl

@[simp] theorem resetTicker_poller {α ε : Type} (s : Sys α ε) (d : Int) :
    (s.resetTicker d).poller = s.poller := by
  unfold Sys.resetTicker; split
  · rfl
  · split <;> rfl

@[simp] theorem resetTicker_cancelled {α ε : Type} (s : Sys α ε) (d : Int) :
    (s.resetTicker d).cancelled = s.cancelled := by
  unfold Sys.resetTicker; split
  · rfl
  · split <;> rfl

@[simp] theorem resetTicker_started {α ε : Type} (s : Sys α ε) (d : Int) :
    (s.resetTicker d).started = s.started := by
  unfold Sys.resetTicker; split
  · rfl
  · split <;> rfl

@[simp] theorem resetTicker_dispatcherCalls {α ε : Type} (s : Sys α ε) (d : Int) :
    (s.resetTicker d).dispatcherCalls = s.dispatcherCalls := by
  unfold Sys.resetTicker; split
  · rfl
  · split <;> rfl

@[simp] theorem resetTicker_timerTakes {α ε : Type} (s : Sys α ε) (d : Int) :
    (s.resetTicker d).timerTakes = s.timerTakes := by
  unfold Sys.resetTicker; split
  · rfl
  · split <;> rfl

theorem tickBody_def {α ε : Type} (s : Sys α ε) (ts : List α) (e : Option ε) :
    s.tickBody ts e =
      match tickHead s.tp ts e with
      | TickHead.handled e1 =>
        { s with dispatcherCalls := s.dispatcherCalls + 1, hookCalls := s.hookCalls ++ [e1]
                 poller := some PollPc.wait }
      | TickHead.backoff =>
        ({ s with dispatcherCalls := s.dispatcherCalls + 1
                  poller := some PollPc.wait }).resetTicker (wrap64 (s.tp.periodReceivingTasks * 10))
      | TickHead.submit ts1 =>
        { s with dispatcherCalls := s.dispatcherCalls + 1, poller := some (PollPc.submit ts1) } :=
  rfl

@[simp] theorem tickBody_tp {α ε : Type} (s : Sys α ε) (ts : List α) (e : Option ε) :
    (s.tickBody ts e).tp = s.tp := by
  rw [tickBody_def]; split <;> simp

@[simp] theorem tickBody_accepted {α ε : Type} (s : Sys α ε) (ts : List α) (e : Option ε) :
    (s.tickBody ts e).accepted = s.accepted := by
  rw [tickBody_def]; split <;> simp

@[simp] theorem tickBody_invoked {α ε : Type} (s : Sys α ε) (ts : List α) (e : Option ε) :
    (s.tickBody ts e).invoked = s.invoked := by
  rw [tickBody_def]; split <;> simp

@[simp] theorem tickBody_workers {α ε : Type} (s : Sys α ε) (ts : List α) (e : Option ε) :
    (s.tickBody ts e).workers = s.workers := by
  rw [tickBody_def]; split <;> simp

@[simp] theorem tickBody_cancelled {α ε : Type} (s : Sys α ε) (ts : List α) (e : Option ε) :
    (s.tickBody ts e).cancelled = s.cancelled := by
  rw [tickBody_def]; split <;> simp

@[simp] theorem tickBody_started {α ε : Type} (s : Sys α ε) (ts : List α) (e : Option ε) :
    (s.tickBody ts e).started = s.started := by
  rw [tickBody_def]; split <;> simp

@[simp] theorem tickBody_dispatcherCalls {α ε : Type} (s : Sys α ε) (ts : List α)
    (e : Option ε) : (s.tickBody ts e).dispatcherCalls = s.dispatcherCalls + 1 := by
  rw [tickBody_def]; split <;> simp

@[simp] theorem tickBody_timerTakes {α ε : Type} (s : Sys α ε) (ts : List α) (e : Option ε) :
    (s.tickBody ts e).timerTakes = s.timerTakes := by
  rw [tickBody_def]; split <;> simp

theorem tickBody_poller {α ε : Type} (s : Sys α ε) (ts : List α) (e : Option ε) :
    (s.tickBody ts e).poller = some PollPc.wait ∨
      ∃ t rest, (s.tickBody ts e).poller = some (PollPc.submit (t :: rest)) := by
  rw [tickBody_def]
  split
  · simp
  · simp
  · rename_i ts1 hh
    right
    unfold tickHead at hh
    split at hh
    · simp at hh
    · split at hh
      · simp at hh
      · simp only [TickHead.submit.injEq] at hh
        subst hh
        cases ts with
        | nil => simp at *
        | cons t rest => exact ⟨t, rest, rfl⟩

end Workerpool

namespace Workerpool

/-- A state in which actions can happen: no panic so far and `Close` has not returned. -/
theorem step_eq_stepLive {α ε : Type} (s : Sys α ε) (a : Action α ε)
    (hc : s.crashed = false) (hcl : s.tp.pool.tasks.closed = false) :
    step s a = stepLive s a := by
  simp [step, hc, hcl]

theorem step_workerExit {α ε : Type} (s s1 : Sys α ε) (i : Nat) :
    step s (Action.workerExit i) = some s1 ↔
      s.crashed = false ∧ s.tp.pool.tasks.closed = false ∧
        s.workers[i]? = some WorkerPc.wait ∧ s.cancelled = true ∧
        s1 = ({ s with workers := s.workers.set i WorkerPc.exited }).wgDone := by
  constructor
  · intro h
    obtain ⟨hc, hcl, h⟩ := step_live s s1 _ h
    simp only [stepLive] at h
    split at h
    · rename_i hw
      split at h
      · rename_i hcan
        simp only [Option.some.injEq] at h
        exact ⟨hc, hcl, hw, hcan, h.symm⟩
      · simp at h
    · simp at h
  · rintro ⟨hc, hcl, hw, hcan, rfl⟩
    rw [step_eq_stepLive s _ hc hcl]
    simp [stepLive, hw, hcan]

theorem step_workerTake {α ε : Type} (s s1 : Sys α ε) (i : Nat) :
    step s (Action.workerTake i) = some s1 ↔
      s.crashed = false ∧ s.tp.pool.tasks.closed = false ∧
        s.workers[i]? = some WorkerPc.wait ∧
        ∃ t rest, s.tp.pool.tasks.buf = t :: rest ∧
          s1 = { s with tp := { s.tp with pool := { s.tp.pool with
                                  tasks := { s.tp.pool.tasks with buf := rest } } }
                        workers := s.workers.set i (WorkerPc.running t)
                        invoked := s.invoked ++ [t] } := by
  constructor
  · intro h
    obtain ⟨hc, hcl, h⟩ := step_live s s1 _ h
    simp only [stepLive] at h
    split at h
    · rename_i hw
      cases hbuf : s.tp.pool.tasks.buf with
      | nil =>
        rw [recv_nil_open _ hbuf hcl] at h
        simp at h
      | cons t rest =>
        rw [recv_cons _ t rest hbuf] at h
        simp only [Option.some.injEq] at h
        exact ⟨hc, hcl, hw, t, rest, rfl, h.symm⟩
    · simp at h
  · rintro ⟨hc, hcl, hw, t, rest, hbuf, rfl⟩
    rw [step_eq_stepLive s _ hc hcl]
    simp [stepLive, recv_cons _ t rest hbuf, hw, Sys.setPool]

theorem step_workerReturn {α ε : Type} (s s1 : Sys α ε) (i : Nat) :
    step s (Action.workerReturn i) = some s1 ↔
      s.crashed = false ∧ s.tp.pool.tasks.closed = false ∧
        (∃ t, s.workers[i]? = some (WorkerPc.running t)) ∧
        s1 = { s with workers := s.workers.set i WorkerPc.wait } := by
  constructor
  · intro h
    obtain ⟨hc, hcl, h⟩ := step_live s s1 _ h
    simp only [stepLive] at h
    split at h
    · rename_i t hw
      simp only [Option.some.injEq] at h
      exact ⟨hc, hcl, ⟨t, hw⟩, h.symm⟩
    · simp at h
  · rintro ⟨hc, hcl, ⟨t, hw⟩, rfl⟩
    rw [step_eq_stepLive s _ hc hcl]
    simp [stepLive, hw]

theorem step_addTask {α ε : Type} (s s1 : Sys α ε) (t : α) :
    step s (Action.addTask t) = some s1 ↔
      s.crashed = false ∧ s.tp.pool.tasks.closed = false ∧
        s.tp.pool.tasks.buf.length < s.tp.pool.tasks.cap ∧
        s1 = { s with tp := { s.tp with pool := { s.tp.pool with
                                tasks := { s.tp.pool.tasks with
                                           buf := s.tp.pool.tasks.buf ++ [t] } } }
                      accepted := s.accepted ++ [t] } := by
  constructor
  · intro h
    obtain ⟨hc, hcl, h⟩ := step_live s s1 _ h
    simp only [stepLive] at h
    obtain ⟨hlt, rfl⟩ := enqueue_some s s1 t hcl h
    exact ⟨hc, hcl, hlt, rfl⟩
  · rintro ⟨hc, hcl, hlt, rfl⟩
    rw [step_eq_stepLive s _ hc hcl]
    simp [stepLive, enqueue_open s t hcl, hlt]

theorem step_pollFirst {α ε : Type} (s s1 : Sys α ε) (ts : List α) (e : Option ε) :
    step s (Action.pollFirst ts e) = some s1 ↔
      s.crashed = false ∧ s.tp.pool.tasks.closed = false ∧ s.poller = some PollPc.start ∧
        ((s.tp.periodReceivingTasks ≤ 0 ∧ s1 = s.crash) ∨
          (0 < s.tp.periodReceivingTasks ∧
            s1 = ({ s with ticker := some { period := s.tp.periodReceivingTasks
                                            resets := 0 } }).tickBody ts e)) := by
  constructor
  · intro h
    obtain ⟨hc, hcl, h⟩ := step_live s s1 _ h
    simp only [stepLive, NewTicker] at h
    split at h
    · rename_i hp
      split at h
      · rename_i hn
        split at hn
        · rename_i hle
          simp only [Option.some.injEq] at h
          exact ⟨hc, hcl, hp, Or.inl ⟨hle, h.symm⟩⟩
        · simp at hn
      · rename_i t hn
        split at hn
        · simp at hn
        · rename_i hle
          simp only [Option.some.injEq] at hn h
          subst hn
          exact ⟨hc, hcl, hp, Or.inr ⟨by omega, h.symm⟩⟩
    · simp at h
  · rintro ⟨hc, hcl, hp, ⟨hle, rfl⟩ | ⟨hpos, rfl⟩⟩
    · rw [step_eq_stepLive s _ hc hcl]
      simp [stepLive, NewTicker, hp, hle]
    · rw [step_eq_stepLive s _ hc hcl]
      have : ¬ s.tp.periodReceivingTasks ≤ 0 := by omega
      simp [stepLive, NewTicker, hp, this]

theorem step_pollTick {α ε : Type} (s s1 : Sys α ε) (ts : List α) (e : Option ε) :
    step s (Action.pollTick ts e) = some s1 ↔
      s.crashed = false ∧ s.tp.pool.tasks.closed = false ∧ s.poller = some PollPc.wait ∧
        s.tickPending = true ∧
        s1 = ({ s with tickPending := false, timerTakes := s.timerTakes + 1 }).tickBody ts e := by
  constructor
  · intro h
    obtain ⟨hc, hcl, h⟩ := step_live s s1 _ h
    simp only [stepLive] at h
    split at h
    · rename_i hp
      split at h
      · rename_i hpend
        simp only [Option.some.injEq] at h
        exact ⟨hc, hcl, hp, hpend, h.symm⟩
      · simp at h
    · simp at h
  · rintro ⟨hc, hcl, hp, hpend, rfl⟩
    rw [step_eq_stepLive s _ hc hcl]
    simp [stepLive, hp, hpend]

theorem step_pollExit {α ε : Type} (s s1 : Sys α ε) :
    step s Action.pollExit = some s1 ↔
      s.crashed = false ∧ s.tp.pool.tasks.closed = false ∧ s.poller = some PollPc.wait ∧
        s.cancelled = true ∧
        s1 = ({ s with poller := some PollPc.exited, ticker := none }).wgDone := by
  constructor
  · intro h
    obtain ⟨hc, hcl, h⟩ := step_live s s1 _ h
    simp only [stepLive] at h
    split at h
    · rename_i hp
      split at h
      · rename_i hcan
        simp only [Option.some.injEq] at h
        exact ⟨hc, hcl, hp, hcan, h.symm⟩
      · simp at h
    · simp at h
  · rintro ⟨hc, hcl, hp, hcan, rfl⟩
    rw [step_eq_stepLive s _ hc hcl]
    simp [stepLive, hp, hcan]

theorem step_pollCheck {α ε : Type} (s s1 : Sys α ε) :
    step s Action.pollCheck = some s1 ↔
      s.crashed = false ∧ s.tp.pool.tasks.closed = false ∧
        ∃ t rest, s.poller = some (PollPc.submit (t :: rest)) ∧
          s1 = (if s.cancelled = true then { s with poller := some PollPc.wait }
                else { s with poller := some (PollPc.sending t rest) }) := by
  constructor
  · intro h
    obtain ⟨hc, hcl, h⟩ := step_live s s1 _ h
    simp only [stepLive] at h
    split at h
    · rename_i t rest hp
      refine ⟨hc, hcl, t, rest, hp, ?_⟩
      split at h <;> simp_all
    · simp at h
  · rintro ⟨hc, hcl, t, rest, hp, rfl⟩
    rw [step_eq_stepLive s _ hc hcl]
    by_cases hcan : s.cancelled = true <;> simp [stepLive, hp, hcan]

theorem step_pollSend {α ε : Type} (s s1 : Sys α ε) :
    step s Action.pollSend = some s1 ↔
      s.crashed = false ∧ s.tp.pool.tasks.closed = false ∧
        s.tp.pool.tasks.buf.length < s.tp.pool.tasks.cap ∧
        ∃ t rest, s.poller = some (PollPc.sending t rest) ∧
          s1 = (match rest with
            | [] =>
              ({ s with tp := { s.tp with pool := { s.tp.pool with
                                  tasks := { s.tp.pool.tasks with
                                             buf := s.tp.pool.tasks.buf ++ [t] } } }
                        accepted := s.accepted ++ [t]
                        poller := some PollPc.wait }).resetTicker s.tp.periodReceivingTasks
            | _ :: _ =>
              { s with tp := { s.tp with pool := { s.tp.pool with
                                 tasks := { s.tp.pool.tasks with
                                            buf := s.tp.pool.tasks.buf ++ [t] } } }
                       accepted := s.accepted ++ [t]
                       poller := some (PollPc.submit rest) }) := by
  constructor
  · intro h
    obtain ⟨hc, hcl, h⟩ := step_live s s1 _ h
    simp only [stepLive] at h
    split at h
    · rename_i t rest hp
      split at h
      · simp at h
      · rename_i s2 he
        obtain ⟨hlt, rfl⟩ := enqueue_some s s2 t hcl he
        refine ⟨hc, hcl, hlt, t, rest, hp, ?_⟩
        cases rest with
        | nil => simpa using h.symm
        | cons r rs => simpa using h.symm
    · simp at h
  · rintro ⟨hc, hcl, hlt, t, rest, hp, rfl⟩
    rw [step_eq_stepLive s _ hc hcl]
    cases rest with
    | nil => simp [stepLive, hp, enqueue_open s t hcl, hlt]
    | cons r rs => simp [stepLive, hp, enqueue_open s t hcl, hlt]

end Workerpool

namespace Workerpool

theorem step_startPool {α ε : Type} (s s1 : Sys α ε) :
    step s Action.startPool = some s1 ↔
      s.crashed = false ∧ s.tp.pool.tasks.closed = false ∧ s.started = false ∧
        s1 = { s with tp := { s.tp with pool := s.tp.pool.Start.1 }
                      started := true
                      workers := spawnedWorkers s.tp.pool.Start.2
                      poller := spawnedPoller s.tp.pool.Start.2 } := by
  constructor
  · intro h
    obtain ⟨hc, hcl, h⟩ := step_live s s1 _ h
    simp only [stepLive] at h
    split at h
    · simp at h
    · rename_i hs
      simp only [Option.some.injEq] at h
      exact ⟨hc, hcl, by simpa using hs, h.symm⟩
  · rintro ⟨hc, hcl, hs, rfl⟩
    rw [step_eq_stepLive s _ hc hcl]
    simp [stepLive, hs, Sys.setPool]

theorem step_startTimed {α ε : Type} (s s1 : Sys α ε) :
    step s Action.startTimed = some s1 ↔
      s.crashed = false ∧ s.tp.pool.tasks.closed = false ∧ s.started = false ∧
        s1 = { s with tp := s.tp.Start.1
                      started := true
                      workers := spawnedWorkers s.tp.Start.2
                      poller := spawnedPoller s.tp.Start.2 } := by
  constructor
  · intro h
    obtain ⟨hc, hcl, h⟩ := step_live s s1 _ h
    simp only [stepLive] at h
    split at h
    · simp at h
    · rename_i hs
      simp only [Option.some.injEq] at h
      exact ⟨hc, hcl, by simpa using hs, h.symm⟩
  · rintro ⟨hc, hcl, hs, rfl⟩
    rw [step_eq_stepLive s _ hc hcl]
    simp [stepLive, hs]

theorem step_cancel {α ε : Type} (s s1 : Sys α ε) :
    step s Action.cancel = some s1 ↔
      s.crashed = false ∧ s.tp.pool.tasks.closed = false ∧ s1 = { s with cancelled := true } := by
  constructor
  · intro h
    obtain ⟨hc, hcl, h⟩ := step_live s s1 _ h
    simp only [stepLive, Option.some.injEq] at h
    exact ⟨hc, hcl, h.symm⟩
  · rintro ⟨hc, hcl, rfl⟩
    rw [step_eq_stepLive s _ hc hcl]
    simp [stepLive]

theorem step_timerFire {α ε : Type} (s s1 : Sys α ε) :
    step s Action.timerFire = some s1 ↔
      s.crashed = false ∧ s.tp.pool.tasks.closed = false ∧ s.ticker ≠ none ∧
        s1 = { s with tickPending := true } := by
  constructor
  · intro h
    obtain ⟨hc, hcl, h⟩ := step_live s s1 _ h
    simp only [stepLive] at h
    split at h
    · simp at h
    · rename_i t ht
      simp only [Option.some.injEq] at h
      exact ⟨hc, hcl, by simp [ht], h.symm⟩
  · rintro ⟨hc, hcl, ht, rfl⟩
    rw [step_eq_stepLive s _ hc hcl]
    cases htk : s.ticker with
    | none => exact absurd htk ht
    | some t => simp [stepLive, htk]

theorem step_close {α ε : Type} (s s1 : Sys α ε) :
    step s Action.close = some s1 ↔
      s.crashed = false ∧ s.tp.pool.tasks.closed = false ∧ s.tp.pool.wg = 0 ∧
        s1 = { s with tp := { s.tp with pool := { s.tp.pool with
                                tasks := { s.tp.pool.tasks with closed := true } } } } := by
  constructor
  · intro h
    obtain ⟨hc, hcl, h⟩ := step_live s s1 _ h
    simp only [stepLive] at h
    rw [close_open _ hcl] at h
    by_cases hwg : s.tp.pool.wg = 0
    · rw [if_pos hwg] at h
      simp only [Option.some.injEq] at h
      exact ⟨hc, hcl, hwg, h.symm⟩
    · rw [if_neg hwg] at h
      simp at h
  · rintro ⟨hc, hcl, hwg, rfl⟩
    rw [step_eq_stepLive s _ hc hcl]
    simp [stepLive, close_open _ hcl, hwg, Sys.setPool]

end Workerpool

namespace Workerpool

/-- How one action changes the queue and the two task logs: nothing, a send that had room, or a
receive of the oldest task by a worker. -/
theorem step_queue {α ε : Type} (s s1 : Sys α ε) (a : Action α ε) (h : step s a = some s1) :
    s1.tp.pool.tasks.cap = s.tp.pool.tasks.cap ∧
      ((s1.tp.pool.tasks.buf = s.tp.pool.tasks.buf ∧ s1.accepted = s.accepted ∧
          s1.invoked = s.invoked) ∨
        (∃ t, s.tp.pool.tasks.buf.length < s.tp.pool.tasks.cap ∧
          s1.tp.pool.tasks.buf = s.tp.pool.tasks.buf ++ [t] ∧
          s1.accepted = s.accepted ++ [t] ∧ s1.invoked = s.invoked) ∨
        (∃ t, s.tp.pool.tasks.buf = t :: s1.tp.pool.tasks.buf ∧ s1.accepted = s.accepted ∧
          s1.invoked = s.invoked ++ [t])) := by
  cases a with
  | startPool =>
    obtain ⟨-, -, -, rfl⟩ := (step_startPool s s1).1 h
    have := pool_start_eq s.tp.pool
    cases hw : s.tp.pool.worker <;> simp [this, hw]
  | startTimed =>
    obtain ⟨-, -, -, rfl⟩ := (step_startTimed s s1).1 h
    have := pool_start_eq s.tp.pool
    cases hd : s.tp.dispatcher <;> cases hw : s.tp.pool.worker <;>
      simp [TimedPool.Start, this, hw, hd]
  | cancel =>
    obtain ⟨-, -, rfl⟩ := (step_cancel s s1).1 h
    simp
  | addTask t =>
    obtain ⟨-, -, hlt, rfl⟩ := (step_addTask s s1 t).1 h
    exact ⟨rfl, Or.inr (Or.inl ⟨t, hlt, rfl, rfl, rfl⟩)⟩
  | timerFire =>
    obtain ⟨-, -, -, rfl⟩ := (step_timerFire s s1).1 h
    simp
  | close =>
    obtain ⟨-, -, -, rfl⟩ := (step_close s s1).1 h
    simp
  | workerExit i =>
    obtain ⟨-, -, -, -, rfl⟩ := (step_workerExit s s1 i).1 h
    simp [Sys.wgDone, Sys.setPool]
  | workerTake i =>
    obtain ⟨-, -, -, t, rest, hbuf, rfl⟩ := (step_workerTake s s1 i).1 h
    exact ⟨rfl, Or.inr (Or.inr ⟨t, hbuf, rfl, rfl⟩)⟩
  | workerReturn i =>
    obtain ⟨-, -, -, rfl⟩ := (step_workerReturn s s1 i).1 h
    simp
  | pollFirst ts e =>
    obtain ⟨-, -, -, hcase⟩ := (step_pollFirst s s1 ts e).1 h
    rcases hcase with ⟨-, rfl⟩ | ⟨-, rfl⟩ <;> simp [Sys.crash]
  | pollTick ts e =>
    obtain ⟨-, -, -, -, rfl⟩ := (step_pollTick s s1 ts e).1 h
    simp
  | pollExit =>
    obtain ⟨-, -, -, -, rfl⟩ := (step_pollExit s s1).1 h
    simp [Sys.wgDone, Sys.setPool]
  | pollCheck =>
    obtain ⟨-, -, t, rest, -, rfl⟩ := (step_pollCheck s s1).1 h
    by_cases hcan : s.cancelled = true <;> simp [hcan]
  | pollSend =>
    obtain ⟨-, -, hlt, t, rest, -, rfl⟩ := (step_pollSend s s1).1 h
    cases rest with
    | nil => exact ⟨by simp, Or.inr (Or.inl ⟨t, hlt, by simp, by simp, by simp⟩)⟩
    | cons r rs => exact ⟨rfl, Or.inr (Or.inl ⟨t, hlt, rfl, rfl, rfl⟩)⟩

theorem liveWorkers_set {α : Type} (ws : List (WorkerPc α)) (i : Nat) (w w1 : WorkerPc α)
    (h : ws[i]? = some w) : liveWorkers (ws.set i w1) + w.live = liveWorkers ws + w1.live := by
  induction ws generalizing i with
  | nil => simp at h
  | cons x xs ih =>
    cases i with
    | zero =>
      simp only [List.getElem?_cons_zero, Option.some.injEq] at h
      subst h
      simp only [List.set_cons_zero, liveWorkers]
      omega
    | succ i =>
      simp only [List.getElem?_cons_succ] at h
      have := ih i h
      simp only [List.set_cons_succ, liveWorkers]
      omega

theorem spawnedWorkers_replicate {α : Type} (k : Nat) :
    (spawnedWorkers (List.replicate k Goroutine.workerLoop) : List (WorkerPc α)) =
      List.replicate k WorkerPc.wait := by
  induction k with
  | zero => rfl
  | succ k ih => simp [List.replicate_succ, spawnedWorkers, ih]

theorem spawnedPoller_replicate {α : Type} (k : Nat) :
    (spawnedPoller (List.replicate k Goroutine.workerLoop) : Option (PollPc α)) = none := by
  induction k with
  | zero => rfl
  | succ k ih => simp [List.replicate_succ, spawnedPoller, ih]

theorem spawnedWorkers_append_poll {α : Type} (gs : List Goroutine) :
    (spawnedWorkers (gs ++ [Goroutine.pollingLoop]) : List (WorkerPc α)) = spawnedWorkers gs := by
  induction gs with
  | nil => rfl
  | cons g gs ih => cases g <;> simp [spawnedWorkers, ih]

theorem spawnedPoller_replicate_poll {α : Type} (k : Nat) :
    (spawnedPoller (List.replicate k Goroutine.workerLoop ++ [Goroutine.pollingLoop]) :
      Option (PollPc α)) = some PollPc.start := by
  induction k with
  | zero => rfl
  | succ k ih => simp [List.replicate_succ, spawnedPoller, ih]

theorem liveWorkers_replicate_wait {α : Type} (k : Nat) :
    liveWorkers (List.replicate k (WorkerPc.wait : WorkerPc α)) = k := by
  induction k with
  | zero => rfl
  | succ k ih => simp [List.replicate_succ, liveWorkers, ih, WorkerPc.live]; omega

theorem livePoller_tickBody {α ε : Type} (s : Sys α ε) (ts : List α) (e : Option ε) :
    livePoller (s.tickBody ts e).poller = 1 := by
  rcases tickBody_poller s ts e with h | ⟨t, rest, h⟩ <;> simp [h, livePoller]

theorem wgInv_step {α ε : Type} (s s1 : Sys α ε) (a : Action α ε) (hI : WgInv s)
    (h : step s a = some s1) : WgInv s1 := by
  obtain ⟨hwg, hclosed, hns⟩ := hI
  unfold Sys.liveLoops at hwg
  cases a with
  | startPool =>
    obtain ⟨-, hcl, hs, rfl⟩ := (step_startPool s s1).1 h
    obtain ⟨hw0, hp0⟩ := hns hs
    rw [hw0, hp0] at hwg
    simp only [liveWorkers, livePoller] at hwg
    refine ⟨?_, ?_, by simp⟩
    · rw [pool_start_eq]
      cases hw : s.tp.pool.worker <;>
        simp [Sys.liveLoops, hw, hwg, spawnedWorkers, spawnedPoller, liveWorkers, livePoller,
          spawnedWorkers_replicate, spawnedPoller_replicate, liveWorkers_replicate_wait,
          Pool.WorkersCount]
    · rw [pool_start_eq]
      cases hw : s.tp.pool.worker <;> simp [hw, hcl]
  | startTimed =>
    obtain ⟨-, hcl, hs, rfl⟩ := (step_startTimed s s1).1 h
    obtain ⟨hw0, hp0⟩ := hns hs
    rw [hw0, hp0] at hwg
    simp only [liveWorkers, livePoller] at hwg
    refine ⟨?_, ?_, by simp⟩
    · cases hd : s.tp.dispatcher <;> cases hw : s.tp.pool.worker <;>
        simp [TimedPool.Start, pool_start_eq, Sys.liveLoops, hd, hw, hwg, hw0, hp0,
          spawnedWorkers, spawnedPoller, liveWorkers, livePoller, spawnedWorkers_append_poll,
          spawnedWorkers_replicate, spawnedPoller_replicate_poll, liveWorkers_replicate_wait,
          Pool.WorkersCount]
    · cases hd : s.tp.dispatcher <;> cases hw : s.tp.pool.worker <;>
        simp [TimedPool.Start, pool_start_eq, hd, hw, hcl]
  | cancel =>
    obtain ⟨-, -, rfl⟩ := (step_cancel s s1).1 h
    exact ⟨hwg, hclosed, hns⟩
  | addTask t =>
    obtain ⟨-, hcl, -, rfl⟩ := (step_addTask s s1 t).1 h
    exact ⟨hwg, by simp [hcl], hns⟩
  | timerFire =>
    obtain ⟨-, -, -, rfl⟩ := (step_timerFire s s1).1 h
    exact ⟨hwg, hclosed, hns⟩
  | close =>
    obtain ⟨-, -, hz, rfl⟩ := (step_close s s1).1 h
    exact ⟨hwg, fun _ => hz, hns⟩
  | workerExit i =>
    obtain ⟨-, hcl, hw, -, rfl⟩ := (step_workerExit s s1 i).1 h
    have hset := liveWorkers_set s.workers i _ WorkerPc.exited hw
    have hst : s.started = true := by
      cases hs : s.started
      · rw [(hns hs).1] at hw
        simp at hw
      · rfl
    refine ⟨?_, by simp [Sys.wgDone, Sys.setPool, hcl], by simp [Sys.wgDone, Sys.setPool, hst]⟩
    simp only [WorkerPc.live] at hset
    simp only [Sys.wgDone, Sys.setPool, Sys.liveLoops]
    omega
  | workerTake i =>
    obtain ⟨-, hcl, hw, t, rest, -, rfl⟩ := (step_workerTake s s1 i).1 h
    have hset := liveWorkers_set s.workers i _ (WorkerPc.running t) hw
    have hst : s.started = true := by
      cases hs : s.started
      · rw [(hns hs).1] at hw
        simp at hw
      · rfl
    refine ⟨?_, by simp [hcl], by simp [hst]⟩
    simp only [WorkerPc.live] at hset
    simp only [Sys.liveLoops]
    omega
  | workerReturn i =>
    obtain ⟨-, hcl, ⟨t, hw⟩, rfl⟩ := (step_workerReturn s s1 i).1 h
    have hset := liveWorkers_set s.workers i _ WorkerPc.wait hw
    have hst : s.started = true := by
      cases hs : s.started
      · rw [(hns hs).1] at hw
        simp at hw
      · rfl
    refine ⟨?_, by simp [hcl], by simp [hst]⟩
    simp only [WorkerPc.live] at hset
    simp only [Sys.liveLoops]
    omega
  | pollFirst ts e =>
    obtain ⟨-, hcl, hp, hcase⟩ := (step_pollFirst s s1 ts e).1 h
    have hst : s.started = true := by
      cases hs : s.started
      · rw [(hns hs).2] at hp
        simp at hp
      · rfl
    rcases hcase with ⟨-, rfl⟩ | ⟨-, rfl⟩
    · exact ⟨hwg, hclosed, hns⟩
    · refine ⟨?_, by simp [hcl], by simp [hst]⟩
      simp only [Sys.liveLoops, tickBody_tp, tickBody_workers, livePoller_tickBody]
      simpa [hp, livePoller] using hwg
  | pollTick ts e =>
    obtain ⟨-, hcl, hp, -, rfl⟩ := (step_pollTick s s1 ts e).1 h
    have hst : s.started = true := by
      cases hs : s.started
      · rw [(hns hs).2] at hp
        simp at hp
      · rfl
    refine ⟨?_, by simp [hcl], by simp [hst]⟩
    simp only [Sys.liveLoops, tickBody_tp, tickBody_workers, livePoller_tickBody]
    simpa [hp, livePoller] using hwg
  | pollExit =>
    obtain ⟨-, hcl, hp, -, rfl⟩ := (step_pollExit s s1).1 h
    have hst : s.started = true := by
      cases hs : s.started
      · rw [(hns hs).2] at hp
        simp at hp
      · rfl
    refine ⟨?_, by simp [Sys.wgDone, Sys.setPool, hcl], by simp [Sys.wgDone, Sys.setPool, hst]⟩
    simp only [hp, livePoller] at hwg
    simp only [Sys.wgDone, Sys.setPool, Sys.liveLoops, livePoller]
    omega
  | pollCheck =>
    obtain ⟨-, hcl, t, rest, hp, rfl⟩ := (step_pollCheck s s1).1 h
    have hst : s.started = true := by
      cases hs : s.started
      · rw [(hns hs).2] at hp
        simp at hp
      · rfl
    simp only [hp, livePoller] at hwg
    by_cases hcan : s.cancelled = true
    · simp only [hcan, if_true]
      exact ⟨by simpa [Sys.liveLoops, livePoller] using hwg, hclosed, by simp [hst]⟩
    · simp only [hcan]
      exact ⟨by simpa [Sys.liveLoops, livePoller] using hwg, hclosed, by simp [hst]⟩
  | pollSend =>
    obtain ⟨-, hcl, -, t, rest, hp, rfl⟩ := (step_pollSend s s1).1 h
    have hst : s.started = true := by
      cases hs : s.started
      · rw [(hns hs).2] at hp
        simp at hp
      · rfl
    simp only [hp, livePoller] at hwg
    cases rest with
    | nil =>
      exact ⟨by simpa [Sys.liveLoops, livePoller] using hwg, by simp [hcl], by simp [hst]⟩
    | cons r rs =>
      exact ⟨by simpa [Sys.liveLoops, livePoller] using hwg, by simp [hcl], by simp [hst]⟩

end Workerpool

namespace Workerpool

theorem newPool_some {α : Type} (lim : Nat) (w : Bool) (n : Int) (pool : Pool α)
    (h : NewPool lim w n = some pool) :
    0 ≤ n ∧ n ≤ lim ∧ n ≤ maxInt ∧
      pool = { worker := w, tasks := { cap := n.toNat, buf := [], closed := false }
               wg := 0 } := by
  unfold NewPool at h
  split at h
  · simp at h
  · rename_i hn
    simp only [Option.some.injEq] at h
    exact ⟨by omega, by omega, by omega, h.symm⟩

theorem wgInv_init {α ε : Type} (tp : TimedPool α) (lim : Nat) (w : Bool) (n : Int)
    (h : NewPool lim w n = some tp.pool) : WgInv (Sys.init tp : Sys α ε) := by
  obtain ⟨-, -, -, hp⟩ := newPool_some lim w n tp.pool h
  refine ⟨?_, ?_, ?_⟩
  · rw [show (Sys.init tp : Sys α ε).tp.pool = tp.pool from rfl, hp]
    simp [Sys.liveLoops, Sys.init, liveWorkers, livePoller]
  · rw [show (Sys.init tp : Sys α ε).tp.pool = tp.pool from rfl, hp]
    simp
  · intro _
    exact ⟨rfl, rfl⟩

theorem wgInv_reachable {α ε : Type} (tp : TimedPool α) (lim : Nat) (w : Bool) (n : Int)
    (h : NewPool lim w n = some tp.pool) (s : Sys α ε) (hr : Reachable (Sys.init tp) s) :
    WgInv s :=
  reachable_induction WgInv (Sys.init tp) (wgInv_init tp lim w n h)
    (fun s a s1 hI hs => wgInv_step s s1 a hI hs) s hr

/-- Capacity and room: the capacity never changes and the queue never holds more. -/
theorem queue_bounded {α ε : Type} (tp : TimedPool α) (s : Sys α ε)
    (h0 : tp.pool.tasks.buf.length ≤ tp.pool.tasks.cap) (hr : Reachable (Sys.init tp) s) :
    s.tp.pool.tasks.cap = tp.pool.tasks.cap ∧
      s.tp.pool.tasks.buf.length ≤ s.tp.pool.tasks.cap := by
  refine reachable_induction
    (fun s => s.tp.pool.tasks.cap = tp.pool.tasks.cap ∧
      s.tp.pool.tasks.buf.length ≤ s.tp.pool.tasks.cap)
    (Sys.init tp) ⟨rfl, h0⟩ ?_ s hr
  intro s a s1 ⟨hcap, hlen⟩ h
  obtain ⟨hc, hq⟩ := step_queue s s1 a h
  refine ⟨hc.trans hcap, ?_⟩
  rw [hc]
  rcases hq with ⟨hb, -, -⟩ | ⟨t, hlt, hb, -, -⟩ | ⟨t, hb, -, -⟩
  · rw [hb]; exact hlen
  · rw [hb]; simp; omega
  · rw [hb] at hlen; simp at hlen; omega

/-- C7: for a pool that `NewPool` has built with worker count `n` (so `n ≥ 0`), in every state
it can reach (by `Start`, `AddTask`, worker steps, dispatcher ticks, cancellation, `Close`)
`WorkersCount()` is `n` and `0 ≤ QueueSize() ≤ WorkersCount()`.  When the queue is full
(`QueueSize() = WorkersCount()`), no `AddTask` enqueues: the call stays blocked while the channel
is open (it panics once `Close` has closed it), and neither a caller's `AddTask` nor the send of
the polling loop is a step.  Once a worker has taken a task the queue is one shorter, and an
`AddTask` can complete and appends its task. -/
theorem capacity_invariant {α ε : Type} (lim : Nat) (w : Bool) (n : Int) (tp : TimedPool α)
    (hnew : NewPool lim w n = some tp.pool) (s : Sys α ε) (hr : Reachable (Sys.init tp) s) :
    0 ≤ n ∧ (s.tp.pool.WorkersCount : Int) = n ∧ 0 ≤ s.tp.pool.QueueSize ∧
      s.tp.pool.QueueSize ≤ s.tp.pool.WorkersCount ∧
      (s.tp.pool.QueueSize = s.tp.pool.WorkersCount →
        ∀ t, (∀ p, s.tp.pool.AddTask t ≠ Outcome.done p) ∧
          (s.tp.pool.tasks.closed = false → s.tp.pool.AddTask t = Outcome.blocked) ∧
          (s.tp.pool.tasks.closed = true → s.tp.pool.AddTask t = Outcome.panic) ∧
          step s (Action.addTask t) = none ∧ step s Action.pollSend = none) ∧
      (∀ t i s1, step s (Action.workerTake i) = some s1 →
        s1.tp.pool.QueueSize + 1 = s.tp.pool.QueueSize ∧
          ∃ s2, step s1 (Action.addTask t) = some s2 ∧
            s2.tp.pool.tasks.buf = s1.tp.pool.tasks.buf ++ [t]) := by
  obtain ⟨hn, -, -, hp⟩ := newPool_some lim w n tp.pool hnew
  obtain ⟨hcap, hlen⟩ := queue_bounded tp s (by rw [hp]; simp) hr
  rw [hp] at hcap
  simp only at hcap
  refine ⟨hn, by simp [Pool.WorkersCount, hcap, Int.toNat_of_nonneg hn], Nat.zero_le _, hlen,
    ?_, ?_⟩
  · intro hfull t
    have hnot : ¬ s.tp.pool.tasks.buf.length < s.tp.pool.tasks.cap := by
      simp only [Pool.QueueSize, Pool.WorkersCount] at hfull
      omega
    have hopen : s.tp.pool.tasks.closed = false → s.tp.pool.AddTask t = Outcome.blocked := by
      intro hcl
      rw [addTask_open _ _ hcl, if_neg hnot]
    refine ⟨?_, hopen, addTask_closed _ _, ?_, ?_⟩
    · intro p hp1
      cases hcl : s.tp.pool.tasks.closed with
      | false => rw [hopen hcl] at hp1; simp at hp1
      | true => rw [addTask_closed _ _ hcl] at hp1; simp at hp1
    · cases h : step s (Action.addTask t) with
      | none => rfl
      | some s1 => exact absurd ((step_addTask s s1 t).1 h).2.2.1 hnot
    · cases h : step s Action.pollSend with
      | none => rfl
      | some s1 => exact absurd ((step_pollSend s s1).1 h).2.2.1 hnot
  · intro t i s1 h
    obtain ⟨hc, hcl, -, t0, rest, hbuf, rfl⟩ := (step_workerTake s s1 i).1 h
    have hlen2 : rest.length < s.tp.pool.tasks.cap := by
      rw [hbuf] at hlen
      simp at hlen
      omega
    refine ⟨by simp [Pool.QueueSize, hbuf], _, (step_addTask _ _ t).2 ⟨hc, hcl, hlen2, rfl⟩, rfl⟩

theorem capacity_invariant_witness :
    (run (Sys.ofPool demoPool3)
          [Action.startPool, Action.addTask 1, Action.addTask 2, Action.addTask 3] =
        some demoFull3 ∧ NewPool 1024 true 3 = some demoPool3) ∧
      ((0 : Int) ≤ 3 ∧ (demoFull3.tp.pool.WorkersCount : Int) = 3 ∧
        0 ≤ demoFull3.tp.pool.QueueSize ∧
        demoFull3.tp.pool.QueueSize ≤ demoFull3.tp.pool.WorkersCount ∧
        (demoFull3.tp.pool.QueueSize = demoFull3.tp.pool.WorkersCount →
          ∀ t, (∀ p, demoFull3.tp.pool.AddTask t ≠ Outcome.done p) ∧
            (demoFull3.tp.pool.tasks.closed = false →
              demoFull3.tp.pool.AddTask t = Outcome.blocked) ∧
            (demoFull3.tp.pool.tasks.closed = true →
              demoFull3.tp.pool.AddTask t = Outcome.panic) ∧
            step demoFull3 (Action.addTask t) = none ∧ step demoFull3 Action.pollSend = none) ∧
        (∀ t i s1, step demoFull3 (Action.workerTake i) = some s1 →
          s1.tp.pool.QueueSize + 1 = demoFull3.tp.pool.QueueSize ∧
            ∃ s2, step s1 (Action.addTask t) = some s2 ∧
              s2.tp.pool.tasks.buf = s1.tp.pool.tasks.buf ++ [t])) :=
  ⟨by decide,
    capacity_invariant 1024 true 3
      { pool := demoPool3, dispatcher := false, errorHandler := false, periodReceivingTasks := 0 }
      (by decide) demoFull3
      ⟨[Action.startPool, Action.addTask 1, Action.addTask 2, Action.addTask 3], by decide⟩⟩

/-- The state `demoFull3`, with a full queue, is reached by a started pool of three workers;
there a fourth `AddTask` does not complete. -/
theorem demoFull3_reachable :
    run (Sys.ofPool demoPool3)
        [Action.startPool, Action.addTask 1, Action.addTask 2, Action.addTask 3] =
        some demoFull3 ∧
      step demoFull3 (Action.addTask 4) = none := by
  decide

end Workerpool

namespace Workerpool

/-- C6: in every state a pool built by `NewPool` can reach, the tasks whose `AddTask` completed
are, in order, the tasks handed to worker invocations followed by the tasks still in the queue:
none is lost and none is duplicated (as multisets: accepted = queue + invoked), and the tasks
handed to workers, in the order they left the queue, are a prefix of the enqueue order, which
with a single worker is the order of the invocations.  A worker that takes a task removes the
head of the queue and passes exactly that task to one invocation, its own, once. -/
theorem no_task_lost {α ε : Type} (tp : TimedPool α) (lim : Nat) (w : Bool) (n : Int)
    (hnew : NewPool lim w n = some tp.pool) (s : Sys α ε) (hr : Reachable (Sys.init tp) s) :
    s.accepted = s.invoked ++ s.tp.pool.tasks.buf ∧
      (s.accepted : Multiset α) = (s.tp.pool.tasks.buf : Multiset α) + (s.invoked : Multiset α) ∧
      s.invoked <+: s.accepted ∧
      (∀ i s1, step s (Action.workerTake i) = some s1 →
        ∃ t, s.tp.pool.tasks.buf = t :: s1.tp.pool.tasks.buf ∧
          s1.invoked = s.invoked ++ [t] ∧
          s1.workers = s.workers.set i (WorkerPc.running t) ∧
          s1.accepted = s.accepted) := by
  have hinv : s.accepted = s.invoked ++ s.tp.pool.tasks.buf := by
    refine reachable_induction (fun s => s.accepted = s.invoked ++ s.tp.pool.tasks.buf)
      (Sys.init tp) ?_ ?_ s hr
    · obtain ⟨-, -, -, hp⟩ := newPool_some lim w n tp.pool hnew
      show [] = [] ++ tp.pool.tasks.buf
      rw [hp]
      rfl
    · intro s a s1 hI h
      obtain ⟨-, hq⟩ := step_queue s s1 a h
      rcases hq with ⟨hb, ha, hi⟩ | ⟨t, -, hb, ha, hi⟩ | ⟨t, hb, ha, hi⟩
      · rw [hb, ha, hi]; exact hI
      · rw [hb, ha, hi, hI, List.append_assoc]
      · rw [ha, hi, hI, hb]; simp
  refine ⟨hinv, ?_, ?_, ?_⟩
  · rw [hinv, ← Multiset.coe_add]
    exact add_comm _ _
  · exact ⟨s.tp.pool.tasks.buf, hinv.symm⟩
  · intro i s1 h
    obtain ⟨-, -, -, t, rest, hbuf, rfl⟩ := (step_workerTake s s1 i).1 h
    exact ⟨t, hbuf, rfl, rfl, rfl⟩

theorem no_task_lost_witness :
    (run (Sys.ofPool demoPool3) demoTrace3 = some demoFinal3 ∧
        demoFinal3.invoked = [1, 2, 3, 4, 5, 6, 7, 8, 9, 10] ∧ demoFinal3.invoked.Nodup) ∧
      (demoFinal3.accepted = demoFinal3.invoked ++ demoFinal3.tp.pool.tasks.buf ∧
        (demoFinal3.accepted : Multiset Nat) =
          (demoFinal3.tp.pool.tasks.buf : Multiset Nat) + (demoFinal3.invoked : Multiset Nat) ∧
        demoFinal3.invoked <+: demoFinal3.accepted ∧
        (∀ i s1, step demoFinal3 (Action.workerTake i) = some s1 →
          ∃ t, demoFinal3.tp.pool.tasks.buf = t :: s1.tp.pool.tasks.buf ∧
            s1.invoked = demoFinal3.invoked ++ [t] ∧
            s1.workers = demoFinal3.workers.set i (WorkerPc.running t) ∧
            s1.accepted = demoFinal3.accepted)) :=
  ⟨by decide,
    no_task_lost
      { pool := demoPool3, dispatcher := false, errorHandler := false, periodReceivingTasks := 0 }
      1024 true 3 (by decide) demoFinal3 ⟨demoTrace3, by decide⟩⟩

/-- C3 as stated fails: a started pool with one worker, task `7` in the queue and the context
cancelled is reached with the worker at its `select`; from there the worker may take the task,
which starts a new invocation of the worker function on `7` after cancellation. -/
theorem worker_takes_task_after_cancel :
    run (Sys.init demoTimed : Sys Nat Nat)
        [Action.startPool, Action.addTask 7, Action.cancel] = some demoCancelled ∧
      demoCancelled.cancelled = true ∧ demoCancelled.workers = [WorkerPc.wait] ∧
      demoCancelled.invoked = [] ∧
      (step demoCancelled (Action.workerTake 0)).map (fun s => (s.workers, s.invoked)) =
        some ([WorkerPc.running 7], [7]) := by
  decide

/-- C3, amended: in every reachable state (no panic) in which the context has been cancelled, a
worker loop at its `select` can exit, and exiting starts no invocation; it starts a new
invocation of the worker function only by taking a task that is in the queue, the `select`
giving cancellation no priority over a ready task; when the queue is empty its only step is to
exit. -/
theorem worker_after_cancel {α ε : Type} (tp : TimedPool α) (lim : Nat) (w : Bool) (n : Int)
    (hnew : NewPool lim w n = some tp.pool) (s : Sys α ε) (hr : Reachable (Sys.init tp) s)
    (hlive : s.crashed = false) (hc : s.cancelled = true) (i : Nat)
    (hw : s.workers[i]? = some WorkerPc.wait) :
    (∃ s1, step s (Action.workerExit i) = some s1 ∧ s1.workers[i]? = some WorkerPc.exited ∧
        s1.invoked = s.invoked ∧ s1.tp.pool.tasks.buf = s.tp.pool.tasks.buf) ∧
      step s (Action.workerReturn i) = none ∧
      (s.tp.pool.tasks.buf = [] → step s (Action.workerTake i) = none) ∧
      (∀ t rest, s.tp.pool.tasks.buf = t :: rest →
        ∃ s1, step s (Action.workerTake i) = some s1 ∧
          s1.workers[i]? = some (WorkerPc.running t) ∧ s1.invoked = s.invoked ++ [t] ∧
          s1.tp.pool.tasks.buf = rest) := by
  obtain ⟨hwg, hclosed, -⟩ := wgInv_reachable tp lim w n hnew s hr
  have hi : i < s.workers.length := by
    by_contra hge
    rw [List.getElem?_eq_none (by omega)] at hw
    simp at hw
  have hlive1 : 1 ≤ liveWorkers s.workers := by
    have := liveWorkers_set s.workers i _ WorkerPc.exited hw
    simp only [WorkerPc.live] at this
    omega
  have hcl : s.tp.pool.tasks.closed = false := by
    cases hx : s.tp.pool.tasks.closed
    · rfl
    · have := hclosed hx
      unfold Sys.liveLoops at hwg
      omega
  refine ⟨⟨_, (step_workerExit s _ i).2 ⟨hlive, hcl, hw, hc, rfl⟩, ?_, rfl, rfl⟩, ?_, ?_, ?_⟩
  · simp [Sys.wgDone, Sys.setPool, hi]
  · cases h : step s (Action.workerReturn i) with
    | none => rfl
    | some s1 =>
      obtain ⟨-, -, ⟨t, ht⟩, -⟩ := (step_workerReturn s s1 i).1 h
      rw [hw] at ht
      simp at ht
  · intro hempty
    cases h : step s (Action.workerTake i) with
    | none => rfl
    | some s1 =>
      obtain ⟨-, -, -, t, rest, hbuf, -⟩ := (step_workerTake s s1 i).1 h
      rw [hempty] at hbuf
      simp at hbuf
  · intro t rest hbuf
    refine ⟨_, (step_workerTake s _ i).2 ⟨hlive, hcl, hw, t, rest, hbuf, rfl⟩, ?_, rfl, rfl⟩
    simp [hi]

theorem worker_after_cancel_witness :
    (∃ s1, step demoCancelled (Action.workerExit 0) = some s1 ∧
        s1.workers[0]? = some WorkerPc.exited ∧
        s1.invoked = demoCancelled.invoked ∧
        s1.tp.pool.tasks.buf = demoCancelled.tp.pool.tasks.buf) ∧
      step demoCancelled (Action.workerReturn 0) = none ∧
      (demoCancelled.tp.pool.tasks.buf = [] → step demoCancelled (Action.workerTake 0) = none) ∧
      (∀ t rest, demoCancelled.tp.pool.tasks.buf = t :: rest →
        ∃ s1, step demoCancelled (Action.workerTake 0) = some s1 ∧
          s1.workers[0]? = some (WorkerPc.running t) ∧ s1.invoked = demoCancelled.invoked ++ [t] ∧
          s1.tp.pool.tasks.buf = rest) :=
  worker_after_cancel demoTimed 1024 true 1 (by decide) demoCancelled
    ⟨[Action.startPool, Action.addTask 7, Action.cancel], by decide⟩ (by decide) (by decide) 0
    (by decide)

end Workerpool

namespace Workerpool

@[simp] theorem resetTicker_tickPending {α ε : Type} (s : Sys α ε) (d : Int) :
    (s.resetTicker d).tickPending = s.tickPending := by
  unfold Sys.resetTicker; split
  · rfl
  · split <;> rfl

@[simp] theorem tickBody_tickPending {α ε : Type} (s : Sys α ε) (ts : List α) (e : Option ε) :
    (s.tickBody ts e).tickPending = s.tickPending := by
  rw [tickBody_def]; split <;> simp

theorem tickBody_poller_ne_start {α ε : Type} (s : Sys α ε) (ts : List α) (e : Option ε) :
    (s.tickBody ts e).poller ≠ some PollPc.start := by
  rcases tickBody_poller s ts e with h | ⟨t, rest, h⟩ <;> simp [h]

theorem pollInv_step {α ε : Type} (p0 : Int) (hpos : 0 < p0) (s s1 : Sys α ε) (a : Action α ε)
    (hI : PollInv p0 s) (h : step s a = some s1) : PollInv p0 s1 := by
  obtain ⟨hper, hzero, hcount, hcrash, hns⟩ := hI
  cases a with
  | startPool =>
    obtain ⟨hc, -, hs, rfl⟩ := (step_startPool s s1).1 h
    have hz := hzero (Or.inl (hns hs))
    have hp : (spawnedPoller s.tp.pool.Start.2 : Option (PollPc α)) = none := by
      rw [pool_start_eq]
      cases hw : s.tp.pool.worker <;> simp [hw, spawnedPoller, spawnedPoller_replicate]
    exact ⟨hper, fun _ => hz, by simp [hp], by simp [hc], by simp⟩
  | startTimed =>
    obtain ⟨hc, -, hs, rfl⟩ := (step_startTimed s s1).1 h
    have hz := hzero (Or.inl (hns hs))
    refine ⟨?_, fun _ => hz, ?_, by simp [hc], by simp⟩
    · cases hd : s.tp.dispatcher <;> simp [TimedPool.Start, hd, hper]
    · intro pc hpc hne
      exfalso
      revert hpc
      cases hd : s.tp.dispatcher <;> cases hw : s.tp.pool.worker <;>
        simp [TimedPool.Start, pool_start_eq, hd, hw, spawnedPoller, spawnedPoller_replicate_poll]
      all_goals exact fun h => hne h.symm
  | cancel =>
    obtain ⟨-, -, rfl⟩ := (step_cancel s s1).1 h
    exact ⟨hper, hzero, hcount, hcrash, hns⟩
  | addTask t =>
    obtain ⟨-, -, -, rfl⟩ := (step_addTask s s1 t).1 h
    exact ⟨hper, hzero, hcount, hcrash, hns⟩
  | timerFire =>
    obtain ⟨-, -, -, rfl⟩ := (step_timerFire s s1).1 h
    exact ⟨hper, hzero, hcount, hcrash, hns⟩
  | close =>
    obtain ⟨-, -, -, rfl⟩ := (step_close s s1).1 h
    exact ⟨hper, hzero, hcount, hcrash, hns⟩
  | workerExit i =>
    obtain ⟨-, -, -, -, rfl⟩ := (step_workerExit s s1 i).1 h
    exact ⟨hper, hzero, hcount, hcrash, hns⟩
  | workerTake i =>
    obtain ⟨-, -, -, t, rest, -, rfl⟩ := (step_workerTake s s1 i).1 h
    exact ⟨hper, hzero, hcount, hcrash, hns⟩
  | workerReturn i =>
    obtain ⟨-, -, -, rfl⟩ := (step_workerReturn s s1 i).1 h
    exact ⟨hper, hzero, hcount, hcrash, hns⟩
  | pollFirst ts e =>
    obtain ⟨-, -, hp, hcase⟩ := (step_pollFirst s s1 ts e).1 h
    have hz := hzero (Or.inr hp)
    have hst : s.started = true := by
      cases hs : s.started
      · rw [hns hs] at hp; simp at hp
      · rfl
    rcases hcase with ⟨hle, -⟩ | ⟨-, rfl⟩
    · omega
    · refine ⟨by simpa using hper, ?_, ?_, fun _ => tickBody_poller_ne_start _ _ _,
        by simp [hst]⟩
      · intro hor
        rcases tickBody_poller ({ s with ticker := some { period := s.tp.periodReceivingTasks
                                                          resets := 0 } }) ts e with
          h1 | ⟨t, rest, h1⟩ <;> simp [h1] at hor
      · intro pc _ _
        simp [hz.1, hz.2]
  | pollTick ts e =>
    obtain ⟨-, -, hp, -, rfl⟩ := (step_pollTick s s1 ts e).1 h
    have hcnt := hcount _ hp (by simp)
    have hst : s.started = true := by
      cases hs : s.started
      · rw [hns hs] at hp; simp at hp
      · rfl
    refine ⟨by simpa using hper, ?_, ?_, fun _ => tickBody_poller_ne_start _ _ _,
      by simp [hst]⟩
    · intro hor
      rcases tickBody_poller ({ s with tickPending := false
                                       timerTakes := s.timerTakes + 1 }) ts e with
        h1 | ⟨t, rest, h1⟩ <;> simp [h1] at hor
    · intro pc _ _
      simp [hcnt]
  | pollExit =>
    obtain ⟨-, -, hp, -, rfl⟩ := (step_pollExit s s1).1 h
    have hcnt := hcount _ hp (by simp)
    have hst : s.started = true := by
      cases hs : s.started
      · rw [hns hs] at hp; simp at hp
      · rfl
    exact ⟨hper, by simp [Sys.wgDone, Sys.setPool], fun _ _ _ => hcnt,
      by simp [Sys.wgDone, Sys.setPool], by simp [Sys.wgDone, Sys.setPool, hst]⟩
  | pollCheck =>
    obtain ⟨-, -, t, rest, hp, rfl⟩ := (step_pollCheck s s1).1 h
    have hcnt := hcount _ hp (by simp)
    have hst : s.started = true := by
      cases hs : s.started
      · rw [hns hs] at hp; simp at hp
      · rfl
    by_cases hcan : s.cancelled = true
    · simp only [hcan, if_true]
      exact ⟨hper, by simp, fun _ _ _ => hcnt, by simp, by simp [hst]⟩
    · simp only [hcan]
      exact ⟨hper, by simp, fun _ _ _ => hcnt, by simp, by simp [hst]⟩
  | pollSend =>
    obtain ⟨-, -, -, t, rest, hp, rfl⟩ := (step_pollSend s s1).1 h
    have hcnt := hcount _ hp (by simp)
    have hst : s.started = true := by
      cases hs : s.started
      · rw [hns hs] at hp; simp at hp
      · rfl
    cases rest with
    | nil => exact ⟨by simpa using hper, by simp, fun _ _ _ => by simpa using hcnt, by simp,
        by simp [hst]⟩
    | cons r rs => exact ⟨hper, by simp, fun _ _ _ => hcnt, by simp, by simp [hst]⟩

theorem pollInv_reachable {α ε : Type} (tp : TimedPool α) (hpos : 0 < tp.periodReceivingTasks)
    (s : Sys α ε) (hr : Reachable (Sys.init tp) s) : PollInv tp.periodReceivingTasks s := by
  refine reachable_induction (PollInv tp.periodReceivingTasks) (Sys.init tp) ?_
    (fun s a s1 hI hs => pollInv_step _ hpos s s1 a hI hs) s hr
  exact ⟨rfl, fun _ => ⟨rfl, rfl⟩, fun pc hpc => by simp [Sys.init] at hpc,
    fun hc => by simp [Sys.init] at hc, fun _ => rfl⟩

/-- The flag of a pending tick is raised by the timer only. -/
theorem tickPending_raised {α ε : Type} (s s1 : Sys α ε) (a : Action α ε)
    (h : step s a = some s1) (h0 : s.tickPending = false) (h1 : s1.tickPending = true) :
    a = Action.timerFire := by
  cases a with
  | timerFire => rfl
  | startPool =>
    obtain ⟨-, -, -, rfl⟩ := (step_startPool s s1).1 h
    simp [h0] at h1
  | startTimed =>
    obtain ⟨-, -, -, rfl⟩ := (step_startTimed s s1).1 h
    simp [h0] at h1
  | cancel =>
    obtain ⟨-, -, rfl⟩ := (step_cancel s s1).1 h
    simp [h0] at h1
  | addTask t =>
    obtain ⟨-, -, -, rfl⟩ := (step_addTask s s1 t).1 h
    simp [h0] at h1
  | close =>
    obtain ⟨-, -, -, rfl⟩ := (step_close s s1).1 h
    simp [h0] at h1
  | workerExit i =>
    obtain ⟨-, -, -, -, rfl⟩ := (step_workerExit s s1 i).1 h
    simp [Sys.wgDone, Sys.setPool, h0] at h1
  | workerTake i =>
    obtain ⟨-, -, -, t, rest, -, rfl⟩ := (step_workerTake s s1 i).1 h
    simp [h0] at h1
  | workerReturn i =>
    obtain ⟨-, -, -, rfl⟩ := (step_workerReturn s s1 i).1 h
    simp [h0] at h1
  | pollFirst ts e =>
    obtain ⟨-, -, -, hcase⟩ := (step_pollFirst s s1 ts e).1 h
    rcases hcase with ⟨-, rfl⟩ | ⟨-, rfl⟩ <;> simp [Sys.crash, h0] at h1
  | pollTick ts e =>
    obtain ⟨-, -, -, -, rfl⟩ := (step_pollTick s s1 ts e).1 h
    simp at h1
  | pollExit =>
    obtain ⟨-, -, -, -, rfl⟩ := (step_pollExit s s1).1 h
    simp [Sys.wgDone, Sys.setPool, h0] at h1
  | pollCheck =>
    obtain ⟨-, -, t, rest, -, rfl⟩ := (step_pollCheck s s1).1 h
    by_cases hcan : s.cancelled = true <;> simp [hcan, h0] at h1
  | pollSend =>
    obtain ⟨-, -, -, t, rest, -, rfl⟩ := (step_pollSend s s1).1 h
    cases rest <;> simp [h0] at h1

end Workerpool

namespace Workerpool

/-- The dispatcher is called by the first tick and by timer-driven ticks only. -/
theorem dispatcherCalls_changed {α ε : Type} (s s1 : Sys α ε) (a : Action α ε)
    (h : step s a = some s1) (hne : s1.dispatcherCalls ≠ s.dispatcherCalls) :
    (∃ ts e, a = Action.pollFirst ts e) ∨ (∃ ts e, a = Action.pollTick ts e) := by
  cases a with
  | pollFirst ts e => exact Or.inl ⟨ts, e, rfl⟩
  | pollTick ts e => exact Or.inr ⟨ts, e, rfl⟩
  | timerFire =>
    obtain ⟨-, -, -, rfl⟩ := (step_timerFire s s1).1 h
    exact absurd rfl hne
  | startPool =>
    obtain ⟨-, -, -, rfl⟩ := (step_startPool s s1).1 h
    exact absurd rfl hne
  | startTimed =>
    obtain ⟨-, -, -, rfl⟩ := (step_startTimed s s1).1 h
    exact absurd rfl hne
  | cancel =>
    obtain ⟨-, -, rfl⟩ := (step_cancel s s1).1 h
    exact absurd rfl hne
  | addTask t =>
    obtain ⟨-, -, -, rfl⟩ := (step_addTask s s1 t).1 h
    exact absurd rfl hne
  | close =>
    obtain ⟨-, -, -, rfl⟩ := (step_close s s1).1 h
    exact absurd rfl hne
  | workerExit i =>
    obtain ⟨-, -, -, -, rfl⟩ := (step_workerExit s s1 i).1 h
    exact absurd rfl hne
  | workerTake i =>
    obtain ⟨-, -, -, t, rest, -, rfl⟩ := (step_workerTake s s1 i).1 h
    exact absurd rfl hne
  | workerReturn i =>
    obtain ⟨-, -, -, rfl⟩ := (step_workerReturn s s1 i).1 h
    exact absurd rfl hne
  | pollExit =>
    obtain ⟨-, -, -, -, rfl⟩ := (step_pollExit s s1).1 h
    exact absurd rfl hne
  | pollCheck =>
    obtain ⟨-, -, t, rest, -, rfl⟩ := (step_pollCheck s s1).1 h
    by_cases hcan : s.cancelled = true <;> simp [hcan] at hne
  | pollSend =>
    obtain ⟨-, -, -, t, rest, -, rfl⟩ := (step_pollSend s s1).1 h
    cases rest <;> simp at hne

/-- C9: for a timed pool with a dispatcher and a positive base interval, `Start` launches the
polling loop, and in every reachable state: while the loop is at its start, no dispatcher call
and no receive from `ticker.C` has happened, the loop cannot yet wait (neither exit on
cancellation nor take a timer tick), and its first step, always possible, is the first tick,
which calls the dispatcher once; from then on the number of dispatcher calls is the number of
timer ticks taken plus one.  A later dispatcher call happens only in a step that takes a pending
timer tick, which only a timer fire makes pending. -/
theorem first_tick_immediate {α ε : Type} (tp : TimedPool α) (lim : Nat) (w : Bool)
    (n : Int) (hnew : NewPool lim w n = some tp.pool) (hd : tp.dispatcher = true)
    (hpos : 0 < tp.periodReceivingTasks) (s : Sys α ε) (hr : Reachable (Sys.init tp) s) :
    (∃ s1, step (Sys.init tp : Sys α ε) Action.startTimed = some s1 ∧
        s1.poller = some PollPc.start) ∧
      (s.poller = some PollPc.start →
        s.dispatcherCalls = 0 ∧ s.timerTakes = 0 ∧ step s Action.pollExit = none ∧
          (∀ ts e, step s (Action.pollTick ts e) = none) ∧
          ∀ ts e, ∃ s1, step s (Action.pollFirst ts e) = some s1 ∧ s1.dispatcherCalls = 1 ∧
            s1.timerTakes = 0 ∧ s1.poller ≠ some PollPc.start) ∧
      (∀ pc, s.poller = some pc → pc ≠ PollPc.start →
        s.dispatcherCalls = s.timerTakes + 1) ∧
      (∀ ts e s1, step s (Action.pollTick ts e) = some s1 →
        s.tickPending = true ∧ s1.timerTakes = s.timerTakes + 1 ∧
          s1.dispatcherCalls = s.dispatcherCalls + 1) ∧
      (∀ a s1, step s a = some s1 → s1.dispatcherCalls ≠ s.dispatcherCalls →
        (∃ ts e, a = Action.pollFirst ts e) ∨ (∃ ts e, a = Action.pollTick ts e)) ∧
      (∀ a s1, step s a = some s1 → s.tickPending = false → s1.tickPending = true →
        a = Action.timerFire) := by
  obtain ⟨hper, hzero, hcount, hcrash, -⟩ := pollInv_reachable tp hpos s hr
  obtain ⟨hwg, hclosed, -⟩ := wgInv_reachable tp lim w n hnew s hr
  obtain ⟨-, -, -, hp0⟩ := newPool_some lim w n tp.pool hnew
  refine ⟨?_, ?_, hcount, ?_, fun a s1 h hne => dispatcherCalls_changed s s1 a h hne,
    fun a s1 h h0 h1 => tickPending_raised s s1 a h h0 h1⟩
  · refine ⟨_, (step_startTimed (Sys.init tp) _).2 ⟨rfl, ?_, rfl, rfl⟩, ?_⟩
    · show tp.pool.tasks.closed = false
      rw [hp0]
    · show spawnedPoller (Sys.init tp : Sys α ε).tp.Start.2 = some PollPc.start
      show spawnedPoller tp.Start.2 = some PollPc.start
      cases hw : tp.pool.worker <;>
        simp [TimedPool.Start, pool_start_eq, hd, hw, spawnedPoller,
          spawnedPoller_replicate_poll]
  · intro hp
    have hz := hzero (Or.inr hp)
    have hlive : s.crashed = false := by
      cases hx : s.crashed
      · rfl
      · exact absurd hp (hcrash hx)
    have hcl : s.tp.pool.tasks.closed = false := by
      cases hx : s.tp.pool.tasks.closed
      · rfl
      · have := hclosed hx
        unfold Sys.liveLoops at hwg
        rw [hp] at hwg
        simp only [livePoller] at hwg
        omega
    refine ⟨hz.1, hz.2, ?_, ?_, ?_⟩
    · cases h : step s Action.pollExit with
      | none => rfl
      | some s1 =>
        have := ((step_pollExit s s1).1 h).2.2.1
        rw [hp] at this
        simp at this
    · intro ts e
      cases h : step s (Action.pollTick ts e) with
      | none => rfl
      | some s1 =>
        have := ((step_pollTick s s1 ts e).1 h).2.2.1
        rw [hp] at this
        simp at this
    · intro ts e
      refine ⟨_, (step_pollFirst s _ ts e).2 ⟨hlive, hcl, hp, Or.inr ⟨by omega, rfl⟩⟩, ?_, ?_,
        tickBody_poller_ne_start _ _ _⟩
      · simp [hz.1]
      · simp [hz.2]
  · intro ts e s1 h
    obtain ⟨-, -, -, hpend, rfl⟩ := (step_pollTick s s1 ts e).1 h
    exact ⟨hpend, by simp, by simp⟩

theorem first_tick_immediate_witness :
    (run (Sys.init demoTimed) demoPolledTrace = some demoPolled ∧
        demoPolled.dispatcherCalls = 3 ∧ demoPolled.timerTakes = 2) ∧
      ((∃ s1, step (Sys.init demoTimed : Sys Nat Nat) Action.startTimed = some s1 ∧
          s1.poller = some PollPc.start) ∧
        (demoPolled.poller = some PollPc.start →
          demoPolled.dispatcherCalls = 0 ∧ demoPolled.timerTakes = 0 ∧
            step demoPolled Action.pollExit = none ∧
            (∀ ts e, step demoPolled (Action.pollTick ts e) = none) ∧
            ∀ ts e, ∃ s1, step demoPolled (Action.pollFirst ts e) = some s1 ∧
              s1.dispatcherCalls = 1 ∧ s1.timerTakes = 0 ∧ s1.poller ≠ some PollPc.start) ∧
        (∀ pc, demoPolled.poller = some pc → pc ≠ PollPc.start →
          demoPolled.dispatcherCalls = demoPolled.timerTakes + 1) ∧
        (∀ ts e s1, step demoPolled (Action.pollTick ts e) = some s1 →
          demoPolled.tickPending = true ∧ s1.timerTakes = demoPolled.timerTakes + 1 ∧
            s1.dispatcherCalls = demoPolled.dispatcherCalls + 1) ∧
        (∀ a s1, step demoPolled a = some s1 →
          s1.dispatcherCalls ≠ demoPolled.dispatcherCalls →
          (∃ ts e, a = Action.pollFirst ts e) ∨ (∃ ts e, a = Action.pollTick ts e)) ∧
        (∀ a s1, step demoPolled a = some s1 → demoPolled.tickPending = false →
          s1.tickPending = true → a = Action.timerFire)) :=
  ⟨by decide,
    first_tick_immediate demoTimed 1024 true 1 (by decide) (by decide) (by decide) demoPolled
      ⟨demoPolledTrace, by decide⟩⟩

end Workerpool

namespace Workerpool

/-- From `demoStuck` the only actions possible are a repeated cancellation and a timer fire:
the state stays `demoStuck` or `demoStuckTicked`. -/
theorem demoStuck_closed (s s1 : Sys Nat Nat) (a : Action Nat Nat)
    (hs : s = demoStuck ∨ s = demoStuckTicked) (h : step s a = some s1) :
    s1 = demoStuck ∨ s1 = demoStuckTicked := by
  cases a with
  | startPool =>
    obtain ⟨-, -, hst, -⟩ := (step_startPool s s1).1 h
    rcases hs with rfl | rfl <;> simp [demoStuck, demoStuckTicked] at hst
  | startTimed =>
    obtain ⟨-, -, hst, -⟩ := (step_startTimed s s1).1 h
    rcases hs with rfl | rfl <;> simp [demoStuck, demoStuckTicked] at hst
  | cancel =>
    obtain ⟨-, -, rfl⟩ := (step_cancel s s1).1 h
    rcases hs with rfl | rfl
    · exact Or.inl rfl
    · exact Or.inr rfl
  | addTask t =>
    obtain ⟨-, -, hlt, -⟩ := (step_addTask s s1 t).1 h
    rcases hs with rfl | rfl <;> simp [demoStuck, demoStuckTicked] at hlt
  | timerFire =>
    obtain ⟨-, -, -, rfl⟩ := (step_timerFire s s1).1 h
    rcases hs with rfl | rfl
    · exact Or.inr rfl
    · exact Or.inr rfl
  | close =>
    obtain ⟨-, -, hz, -⟩ := (step_close s s1).1 h
    rcases hs with rfl | rfl <;> simp [demoStuck, demoStuckTicked] at hz
  | workerExit i =>
    obtain ⟨-, -, hw, -, -⟩ := (step_workerExit s s1 i).1 h
    rcases hs with rfl | rfl <;> cases i <;> simp [demoStuck, demoStuckTicked] at hw
  | workerTake i =>
    obtain ⟨-, -, hw, -⟩ := (step_workerTake s s1 i).1 h
    rcases hs with rfl | rfl <;> cases i <;> simp [demoStuck, demoStuckTicked] at hw
  | workerReturn i =>
    obtain ⟨-, -, ⟨t, hw⟩, -⟩ := (step_workerReturn s s1 i).1 h
    rcases hs with rfl | rfl <;> cases i <;> simp [demoStuck, demoStuckTicked] at hw
  | pollFirst ts e =>
    obtain ⟨-, -, hp, -⟩ := (step_pollFirst s s1 ts e).1 h
    rcases hs with rfl | rfl <;> simp [demoStuck, demoStuckTicked] at hp
  | pollTick ts e =>
    obtain ⟨-, -, hp, -⟩ := (step_pollTick s s1 ts e).1 h
    rcases hs with rfl | rfl <;> simp [demoStuck, demoStuckTicked] at hp
  | pollExit =>
    obtain ⟨-, -, hp, -⟩ := (step_pollExit s s1).1 h
    rcases hs with rfl | rfl <;> simp [demoStuck, demoStuckTicked] at hp
  | pollCheck =>
    obtain ⟨-, -, t, rest, hp, -⟩ := (step_pollCheck s s1).1 h
    rcases hs with rfl | rfl <;> simp [demoStuck, demoStuckTicked] at hp
  | pollSend =>
    obtain ⟨-, -, hlt, -⟩ := (step_pollSend s s1).1 h
    rcases hs with rfl | rfl <;> simp [demoStuck, demoStuckTicked] at hlt

/-- C4, the code at the failing input: a timed pool with one worker and a queue of capacity 1
whose dispatcher returns the batch `[1, 2]`.  After task `1` is sent and the check before
task `2` has passed, the context is cancelled and the worker exits on cancellation.  The state
reached has the context cancelled, the polling loop not returned (it is at the send of
task `2`, the queue being full) and a wait-group count of 1; no spawned loop can take a
step there, and in every state reachable from it the count is still 1 and `Close` cannot
return.  As one call of `tick`: when only the first send finds room, the call enqueues task `1`
and never returns. -/
theorem close_blocks_after_cancel :
    run (Sys.init demoTimed) demoStuckTrace = some demoStuck ∧
      demoStuck.cancelled = true ∧ demoStuck.crashed = false ∧
      demoStuck.workers = [WorkerPc.exited] ∧
      demoStuck.poller = some (PollPc.sending 2 []) ∧
      demoStuck.tp.pool.QueueSize = demoStuck.tp.pool.WorkersCount ∧
      demoStuck.tp.pool.wg = 1 ∧
      (∀ a : Action Nat Nat, a.isLoopStep = true → step demoStuck a = none) ∧
      (∀ as s, run demoStuck as = some s →
        s.poller = some (PollPc.sending 2 []) ∧ s.tp.pool.wg = 1 ∧
          s.tp.pool.Close = Outcome.blocked ∧ step s Action.close = none) ∧
      tick demoTimed demoTicker [1, 2] (none : Option Nat) neverDone roomForOne =
        { hookCalls := [], submitted := [1], ticker := demoTicker, ending := TickEnd.blocked } := by
  refine ⟨by decide, rfl, rfl, rfl, rfl, rfl, rfl, ?_, ?_, by decide⟩
  · intro a ha
    cases h : step demoStuck a with
    | none => rfl
    | some s1 =>
      exfalso
      cases a with
      | startPool => simp [Action.isLoopStep] at ha
      | startTimed => simp [Action.isLoopStep] at ha
      | cancel => simp [Action.isLoopStep] at ha
      | addTask t => simp [Action.isLoopStep] at ha
      | timerFire => simp [Action.isLoopStep] at ha
      | close => simp [Action.isLoopStep] at ha
      | workerExit i =>
        obtain ⟨-, -, hw, -, -⟩ := (step_workerExit _ s1 i).1 h
        cases i <;> simp [demoStuck] at hw
      | workerTake i =>
        obtain ⟨-, -, hw, -⟩ := (step_workerTake _ s1 i).1 h
        cases i <;> simp [demoStuck] at hw
      | workerReturn i =>
        obtain ⟨-, -, ⟨t, hw⟩, -⟩ := (step_workerReturn _ s1 i).1 h
        cases i <;> simp [demoStuck] at hw
      | pollFirst ts e =>
        obtain ⟨-, -, hp, -⟩ := (step_pollFirst _ s1 ts e).1 h
        simp [demoStuck] at hp
      | pollTick ts e =>
        obtain ⟨-, -, hp, -⟩ := (step_pollTick _ s1 ts e).1 h
        simp [demoStuck] at hp
      | pollExit =>
        obtain ⟨-, -, hp, -⟩ := (step_pollExit _ s1).1 h
        simp [demoStuck] at hp
      | pollCheck =>
        obtain ⟨-, -, t, rest, hp, -⟩ := (step_pollCheck _ s1).1 h
        simp [demoStuck] at hp
      | pollSend =>
        obtain ⟨-, -, hlt, -⟩ := (step_pollSend _ s1).1 h
        simp [demoStuck] at hlt
  · intro as s hrun
    have hin : s = demoStuck ∨ s = demoStuckTicked :=
      run_induction (fun s => s = demoStuck ∨ s = demoStuckTicked)
        (fun s a s1 hs h => demoStuck_closed s s1 a hs h) as demoStuck s (Or.inl rfl) hrun
    rcases hin with rfl | rfl <;> exact ⟨rfl, rfl, by decide, by decide⟩

end Workerpool

namespace Workerpool

theorem afterSends_afterSends {α ε : Type} (s : Sys α ε) (xs ys : List α) (pc pc1 : PollPc α) :
    (s.afterSends xs pc).afterSends ys pc1 = s.afterSends (xs ++ ys) pc1 := by
  simp [Sys.afterSends, List.append_assoc]

theorem afterSends_nil {α ε : Type} (s : Sys α ε) (pc : PollPc α) (hp : s.poller = some pc) :
    s.afterSends [] pc = s := by
  obtain ⟨⟨⟨w, ⟨cap, buf, closed⟩, wg⟩, d, e, p⟩, st, c, cr, ws, po, tk, pend, acc, inv, hk, dc,
    tt⟩ := s
  simp only at hp
  simp [Sys.afterSends, hp]

theorem run_two {α ε : Type} (s s1 s2 : Sys α ε) (a b : Action α ε) (as : List (Action α ε))
    (h1 : step s a = some s1) (h2 : step s1 b = some s2) : run s (a :: b :: as) = run s2 as := by
  simp only [run, h1, h2]

/-- The loop of `tick` inside the running pool, with no other goroutine in between: while
the context is not cancelled and the queue has room, `k` rounds of check and send enqueue the
first `k` tasks of the batch, in order, and leave the loop before the next one. -/
theorem poll_batch_progress {α ε : Type} (k : Nat) (s : Sys α ε) (t : α) (rest : List α)
    (hc : s.crashed = false) (hcl : s.tp.pool.tasks.closed = false)
    (hcan : s.cancelled = false) (hp : s.poller = some (PollPc.submit (t :: rest)))
    (hk : k < (t :: rest).length)
    (hroom : s.tp.pool.tasks.buf.length + k ≤ s.tp.pool.tasks.cap) :
    run s (batchActions k) =
      some (s.afterSends ((t :: rest).take k) (PollPc.submit ((t :: rest).drop k))) := by
  induction k generalizing s t rest with
  | zero =>
    simp only [batchActions, run, List.take_zero, List.drop_zero, Option.some.injEq]
    exact (afterSends_nil s _ hp).symm
  | succ k ih =>
    cases rest with
    | nil => simp at hk
    | cons r rs =>
      have h1 : step s Action.pollCheck =
          some { s with poller := some (PollPc.sending t (r :: rs)) } :=
        (step_pollCheck s _).2 ⟨hc, hcl, t, r :: rs, hp, by simp [hcan]⟩
      have h2 : step { s with poller := some (PollPc.sending t (r :: rs)) } Action.pollSend =
          some (s.afterSends [t] (PollPc.submit (r :: rs))) :=
        (step_pollSend _ _).2 ⟨hc, hcl, by simpa using (by omega : s.tp.pool.tasks.buf.length <
          s.tp.pool.tasks.cap), t, r :: rs, rfl, rfl⟩
      rw [show (batchActions (k + 1) : List (Action α ε)) =
          Action.pollCheck :: Action.pollSend :: batchActions k from rfl,
        run_two s _ _ _ _ _ h1 h2,
        ih (s.afterSends [t] (PollPc.submit (r :: rs))) r rs hc hcl hcan rfl
          (by simpa using hk) (by simp [Sys.afterSends]; omega),
        afterSends_afterSends]
      rfl

/-- The loop of `tick` run to its end inside the running pool: when the context is not
cancelled and the queue has room for the whole batch, the polling loop enqueues the batch in
order, resets the ticker to the base interval and goes back to its wait. -/
theorem poll_batch_finishes {α ε : Type} (s : Sys α ε) (t : α) (rest : List α) (tk : Ticker)
    (hc : s.crashed = false) (hcl : s.tp.pool.tasks.closed = false)
    (hcan : s.cancelled = false) (hp : s.poller = some (PollPc.submit (t :: rest)))
    (htk : s.ticker = some tk) (hpos : 0 < s.tp.periodReceivingTasks)
    (hroom : s.tp.pool.tasks.buf.length + (t :: rest).length ≤ s.tp.pool.tasks.cap) :
    run s (batchActions (t :: rest).length) =
      some { s.afterSends (t :: rest) PollPc.wait with
             ticker := some { period := s.tp.periodReceivingTasks, resets := tk.resets + 1 } } := by
  have hnot : ¬ s.tp.periodReceivingTasks ≤ 0 := by omega
  induction rest generalizing s t with
  | nil =>
    have h1 : step s Action.pollCheck = some { s with poller := some (PollPc.sending t []) } :=
      (step_pollCheck s _).2 ⟨hc, hcl, t, [], hp, by simp [hcan]⟩
    have h2 : step { s with poller := some (PollPc.sending t []) } Action.pollSend =
        some { s.afterSends [t] PollPc.wait with
               ticker := some { period := s.tp.periodReceivingTasks
                                resets := tk.resets + 1 } } := by
      refine (step_pollSend _ _).2 ⟨hc, hcl, ?_, t, [], rfl, ?_⟩
      · simp only [List.length_singleton] at hroom
        simpa using (by omega : s.tp.pool.tasks.buf.length < s.tp.pool.tasks.cap)
      · simp [Sys.resetTicker, Ticker.Reset, htk, hnot, Sys.afterSends]
    rw [show (batchActions [t].length : List (Action α ε)) =
        Action.pollCheck :: Action.pollSend :: [] from rfl, run_two s _ _ _ _ _ h1 h2]
    rfl
  | cons r rs ih =>
    have h1 : step s Action.pollCheck =
        some { s with poller := some (PollPc.sending t (r :: rs)) } :=
      (step_pollCheck s _).2 ⟨hc, hcl, t, r :: rs, hp, by simp [hcan]⟩
    have h2 : step { s with poller := some (PollPc.sending t (r :: rs)) } Action.pollSend =
        some (s.afterSends [t] (PollPc.submit (r :: rs))) := by
      refine (step_pollSend _ _).2 ⟨hc, hcl, ?_, t, r :: rs, rfl, rfl⟩
      simp only [List.length_cons] at hroom
      simpa using (by omega : s.tp.pool.tasks.buf.length < s.tp.pool.tasks.cap)
    have := ih (s.afterSends [t] (PollPc.submit (r :: rs))) r hc hcl hcan rfl htk hpos
      (by simp only [List.length_cons] at hroom; simp [Sys.afterSends]; omega) hnot
    rw [show (batchActions (t :: r :: rs).length : List (Action α ε)) =
        Action.pollCheck :: Action.pollSend :: batchActions (r :: rs).length from rfl,
      run_two s _ _ _ _ _ h1 h2, this, afterSends_afterSends]
    rfl

/-- The loop of `tick` cut short inside the running pool: if the context is cancelled after
`k < n` tasks were sent, the next check makes `tick` return; the first `k` tasks are in the
queue, the others are dropped, the ticker is untouched and the loop is back at its wait. -/
theorem poll_batch_cancelled {α ε : Type} (k : Nat) (s : Sys α ε) (t : α) (rest : List α)
    (hc : s.crashed = false) (hcl : s.tp.pool.tasks.closed = false)
    (hcan : s.cancelled = false) (hp : s.poller = some (PollPc.submit (t :: rest)))
    (hk : k < (t :: rest).length)
    (hroom : s.tp.pool.tasks.buf.length + k ≤ s.tp.pool.tasks.cap) :
    run s (batchActions k ++ [Action.cancel, Action.pollCheck]) =
      some { s.afterSends ((t :: rest).take k) PollPc.wait with cancelled := true } := by
  have h0 := poll_batch_progress k s t rest hc hcl hcan hp hk hroom
  refine run_append _ _ s _ _ h0 ?_
  obtain ⟨x, xs, hx⟩ : ∃ x xs, (t :: rest).drop k = x :: xs := by
    cases hd : (t :: rest).drop k with
    | nil =>
      have := congrArg List.length hd
      simp only [List.length_drop, List.length_nil] at this
      omega
    | cons x xs => exact ⟨x, xs, rfl⟩
  rw [hx]
  have h1 : step (s.afterSends ((t :: rest).take k) (PollPc.submit (x :: xs))) Action.cancel =
      some { s.afterSends ((t :: rest).take k) (PollPc.submit (x :: xs)) with
             cancelled := true } :=
    (step_cancel _ _).2 ⟨hc, hcl, rfl⟩
  have h2 : step { s.afterSends ((t :: rest).take k) (PollPc.submit (x :: xs)) with
                   cancelled := true } Action.pollCheck =
      some { s.afterSends ((t :: rest).take k) PollPc.wait with cancelled := true } :=
    (step_pollCheck _ _).2 ⟨hc, hcl, x, xs, rfl, by simp [Sys.afterSends]⟩
  simp only [run, h1, h2]

end Workerpool


namespace Workerpool

theorem runLog_induction {α ε : Type} (P : Sys α ε → TickLog α → Prop)
    (hstep : ∀ s log a s1, P s log → step s a = some s1 → P s1 (log.record s a)) :
    ∀ (as : List (Action α ε)) (s0 s : Sys α ε) (log0 log : TickLog α),
      P s0 log0 → runLog s0 log0 as = some (s, log) → P s log := by
  intro as
  induction as with
  | nil =>
    intro s0 s log0 log h0 h
    simp only [runLog, Option.some.injEq, Prod.mk.injEq] at h
    obtain ⟨rfl, rfl⟩ := h
    exact h0
  | cons a as ih =>
    intro s0 s log0 log h0 h
    simp only [runLog] at h
    cases hs : step s0 a with
    | none => simp [hs] at h
    | some s1 =>
      simp only [hs] at h
      exact ih s1 s _ log (hstep s0 log0 a s1 h0 hs) h

theorem runLog_run {α ε : Type} (as : List (Action α ε)) (s0 s : Sys α ε)
    (log0 log : TickLog α) (h : runLog s0 log0 as = some (s, log)) : run s0 as = some s := by
  induction as generalizing s0 log0 with
  | nil =>
    simp only [runLog, Option.some.injEq, Prod.mk.injEq] at h
    simp [run, h.1]
  | cons a as ih =>
    simp only [runLog] at h
    simp only [run]
    cases hs : step s0 a with
    | none => simp [hs] at h
    | some s1 =>
      simp only [hs] at h ⊢
      exact ih s1 _ h

/-- The two ways `tick` goes on after the dispatcher has returned: to the loop over a batch
that is not empty, nothing else touched; or back to the wait. -/
theorem tickBody_cases {α ε : Type} (s : Sys α ε) (ts : List α) (e : Option ε) :
    (ts ≠ [] ∧ tickHead s.tp ts e = TickHead.submit ts ∧
        s.tickBody ts e =
          { s with dispatcherCalls := s.dispatcherCalls + 1
                   poller := some (PollPc.submit ts) }) ∨
      ((∀ b, tickHead s.tp ts e ≠ TickHead.submit b) ∧
        (s.tickBody ts e).poller = some PollPc.wait) := by
  rw [tickBody_def]
  cases hh : tickHead s.tp ts e with
  | handled e1 => exact Or.inr ⟨by simp, by simp⟩
  | backoff => exact Or.inr ⟨by simp, by simp⟩
  | submit b =>
    left
    unfold tickHead at hh
    split at hh
    · simp at hh
    · split at hh
      · simp at hh
      · rename_i hlen
        simp only [TickHead.submit.injEq] at hh
        subst hh
        exact ⟨by intro h0; simp [h0] at hlen, rfl, rfl⟩

theorem tickBody_ticker_ne_none {α ε : Type} (s : Sys α ε) (ts : List α) (e : Option ε)
    (h : s.ticker ≠ none) : (s.tickBody ts e).ticker ≠ none := by
  rw [tickBody_def]
  split
  · simpa using h
  · unfold Sys.resetTicker
    cases htk : s.ticker with
    | none => exact absurd htk h
    | some tk =>
      simp only [htk]
      split <;> simp [Sys.crash, htk]
  · simpa using h

theorem tickBody_crashed {α ε : Type} (s : Sys α ε) (ts : List α) (e : Option ε)
    (hc : s.crashed = false) (h : (s.tickBody ts e).crashed = true) :
    (s.tickBody ts e).poller = some PollPc.wait := by
  rcases tickBody_cases s ts e with ⟨-, -, heq⟩ | ⟨-, hw⟩
  · rw [heq] at h
    simp [hc] at h
  · exact hw

theorem begin_of_submit {α ε : Type} (s : Sys α ε) (ts : List α) (e : Option ε)
    (h : tickHead s.tp ts e = TickHead.submit ts) :
    TickLog.begin s ts e = { batch := ts, sent := [] } := by
  simp [TickLog.begin, h]

theorem begin_sent {α ε : Type} (s : Sys α ε) (ts : List α) (e : Option ε) :
    (TickLog.begin s ts e).sent = [] := by
  unfold TickLog.begin
  split <;> rfl

theorem tickInv_begin {α ε : Type} (s0 s : Sys α ε) (ts : List α) (e : Option ε)
    (htp : s0.tp = s.tp) (hc : s.crashed = false) (htk : s.ticker ≠ none) :
    TickInv (s.tickBody ts e) (TickLog.begin s0 ts e) := by
  have hsent := begin_sent s0 ts e
  refine ⟨⟨0, Nat.zero_le _, by simp [hsent]⟩, ?_, ?_, by simp [hsent], ?_, ?_⟩
  · intro rest hp
    rcases tickBody_cases s ts e with ⟨hne, hh, heq⟩ | ⟨-, hw⟩
    · rw [heq] at hp
      simp only [Option.some.injEq, PollPc.submit.injEq] at hp
      subst hp
      rw [begin_of_submit s0 ts e (htp ▸ hh)]
      exact ⟨hne, rfl⟩
    · rw [hw] at hp
      simp at hp
  · intro t rest hp
    rcases tickBody_cases s ts e with ⟨-, -, heq⟩ | ⟨-, hw⟩
    · rw [heq] at hp
      simp at hp
    · rw [hw] at hp
      simp at hp
  · intro pc _ _ _
    exact tickBody_ticker_ne_none s ts e htk
  · intro hcr
    exact Or.inl (tickBody_crashed s ts e hc hcr)

end Workerpool

namespace Workerpool

theorem spawnedPoller_cases {α : Type} (gs : List Goroutine) :
    (spawnedPoller gs : Option (PollPc α)) = none ∨
      (spawnedPoller gs : Option (PollPc α)) = some PollPc.start := by
  induction gs with
  | nil => exact Or.inl rfl
  | cons g gs ih => cases g <;> simp [spawnedPoller, ih]

theorem resetTicker_ticker_ne_none {α ε : Type} (s : Sys α ε) (d : Int) (h : s.ticker ≠ none) :
    (s.resetTicker d).ticker ≠ none := by
  unfold Sys.resetTicker
  cases htk : s.ticker with
  | none => exact absurd htk h
  | some tk =>
    simp only
    split <;> simp [Sys.crash, htk]

theorem take_of_append {α : Type} (batch sent rest : List α) (h : batch = sent ++ rest) :
    ∃ k, k ≤ batch.length ∧ sent = batch.take k :=
  ⟨sent.length, by simp [h], by simp [h]⟩

theorem record_other {α ε : Type} (log : TickLog α) (s : Sys α ε) (a : Action α ε)
    (h1 : ∀ ts e, a ≠ Action.pollFirst ts e) (h2 : ∀ ts e, a ≠ Action.pollTick ts e)
    (h3 : a ≠ Action.pollSend) : log.record s a = log := by
  cases a with
  | pollFirst ts e => exact absurd rfl (h1 ts e)
  | pollTick ts e => exact absurd rfl (h2 ts e)
  | pollSend => exact absurd rfl h3
  | _ => rfl

theorem tickInv_step {α ε : Type} (s s1 : Sys α ε) (log : TickLog α) (a : Action α ε)
    (hI : TickInv s log) (h : step s a = some s1) : TickInv s1 (log.record s a) := by
  obtain ⟨hpre, hsub, hsend, hacc, htk, hcr⟩ := hI
  cases a with
  | startPool =>
    obtain ⟨hc, -, -, rfl⟩ := (step_startPool s s1).1 h
    refine ⟨hpre, ?_, ?_, hacc, ?_, by simp [hc]⟩
    · intro rest hp
      rcases spawnedPoller_cases (α := α) s.tp.pool.Start.2 with h0 | h0 <;>
        simp [h0] at hp
    · intro t rest hp
      rcases spawnedPoller_cases (α := α) s.tp.pool.Start.2 with h0 | h0 <;>
        simp [h0] at hp
    · intro pc hp hne _
      rcases spawnedPoller_cases (α := α) s.tp.pool.Start.2 with h0 | h0
      · simp [h0] at hp
      · simp only [h0, Option.some.injEq] at hp
        exact absurd hp.symm hne
  | startTimed =>
    obtain ⟨hc, -, -, rfl⟩ := (step_startTimed s s1).1 h
    refine ⟨hpre, ?_, ?_, hacc, ?_, by simp [hc]⟩
    · intro rest hp
      rcases spawnedPoller_cases (α := α) s.tp.Start.2 with h0 | h0 <;>
        simp [h0] at hp
    · intro t rest hp
      rcases spawnedPoller_cases (α := α) s.tp.Start.2 with h0 | h0 <;>
        simp [h0] at hp
    · intro pc hp hne _
      rcases spawnedPoller_cases (α := α) s.tp.Start.2 with h0 | h0
      · simp [h0] at hp
      · simp only [h0, Option.some.injEq] at hp
        exact absurd hp.symm hne
  | cancel =>
    obtain ⟨hc, -, rfl⟩ := (step_cancel s s1).1 h
    exact ⟨hpre, hsub, hsend, hacc, htk, by simp [hc]⟩
  | addTask t =>
    obtain ⟨hc, -, -, rfl⟩ := (step_addTask s s1 t).1 h
    exact ⟨hpre, hsub, hsend, hacc.trans (List.sublist_append_left _ _), htk, by simp [hc]⟩
  | timerFire =>
    obtain ⟨hc, -, -, rfl⟩ := (step_timerFire s s1).1 h
    exact ⟨hpre, hsub, hsend, hacc, htk, by simp [hc]⟩
  | close =>
    obtain ⟨hc, -, -, rfl⟩ := (step_close s s1).1 h
    exact ⟨hpre, hsub, hsend, hacc, htk, by simp [hc]⟩
  | workerExit i =>
    obtain ⟨hc, -, -, -, rfl⟩ := (step_workerExit s s1 i).1 h
    exact ⟨hpre, hsub, hsend, hacc, htk, by simp [Sys.wgDone, Sys.setPool, hc]⟩
  | workerTake i =>
    obtain ⟨hc, -, -, t, rest, -, rfl⟩ := (step_workerTake s s1 i).1 h
    exact ⟨hpre, hsub, hsend, hacc, htk, by simp [hc]⟩
  | workerReturn i =>
    obtain ⟨hc, -, -, rfl⟩ := (step_workerReturn s s1 i).1 h
    exact ⟨hpre, hsub, hsend, hacc, htk, by simp [hc]⟩
  | pollFirst ts e =>
    obtain ⟨hc, -, hp, hcase⟩ := (step_pollFirst s s1 ts e).1 h
    rcases hcase with ⟨-, rfl⟩ | ⟨-, rfl⟩
    · have hsent := begin_sent s ts e
      refine ⟨⟨0, Nat.zero_le _, by simp [TickLog.record, hsent]⟩, ?_, ?_,
        by simp [TickLog.record, hsent], ?_, fun _ => Or.inr hp⟩
      · intro rest hp1
        simp [Sys.crash, hp] at hp1
      · intro t rest hp1
        simp [Sys.crash, hp] at hp1
      · intro pc hp1 hne _
        simp only [Sys.crash, hp, Option.some.injEq] at hp1
        exact absurd hp1.symm hne
    · exact tickInv_begin s _ ts e rfl hc (by simp)
  | pollTick ts e =>
    obtain ⟨hc, -, hp, -, rfl⟩ := (step_pollTick s s1 ts e).1 h
    exact tickInv_begin s _ ts e rfl hc (htk _ hp (by simp) (by simp))
  | pollExit =>
    obtain ⟨hc, -, hp, -, rfl⟩ := (step_pollExit s s1).1 h
    refine ⟨hpre, ?_, ?_, hacc, ?_, by simp [Sys.wgDone, Sys.setPool, hc]⟩
    · intro rest hp1
      simp [Sys.wgDone, Sys.setPool] at hp1
    · intro t rest hp1
      simp [Sys.wgDone, Sys.setPool] at hp1
    · intro pc hp1 _ hne
      simp only [Sys.wgDone, Sys.setPool, Option.some.injEq] at hp1
      exact absurd hp1.symm hne
  | pollCheck =>
    obtain ⟨hc, -, t, rest, hp, rfl⟩ := (step_pollCheck s s1).1 h
    have hb := (hsub _ hp).2
    have htk1 := htk _ hp (by simp) (by simp)
    by_cases hcan : s.cancelled = true
    · simp only [hcan, if_true]
      exact ⟨hpre, by simp, by simp, hacc, fun _ _ _ _ => htk1, by simp [hc]⟩
    · simp only [hcan]
      refine ⟨hpre, by simp, ?_, hacc, fun _ _ _ _ => htk1, by simp [hc]⟩
      intro t1 rest1 hp1
      have hp2 : some (PollPc.sending t rest) = some (PollPc.sending t1 rest1) := hp1
      simp only [Option.some.injEq, PollPc.sending.injEq] at hp2
      obtain ⟨rfl, rfl⟩ := hp2
      exact hb
  | pollSend =>
    obtain ⟨hc, -, -, t, rest, hp, rfl⟩ := (step_pollSend s s1).1 h
    have hb := hsend _ _ hp
    have htk1 := htk _ hp (by simp) (by simp)
    have hrec : log.record s Action.pollSend = { log with sent := log.sent ++ [t] } := by
      simp [TickLog.record, hp]
    rw [hrec]
    have hb1 : log.batch = (log.sent ++ [t]) ++ rest := by simp [hb]
    cases rest with
    | nil =>
      refine ⟨take_of_append _ _ _ hb1, by simp, by simp, ?_, ?_, fun _ => Or.inl (by simp)⟩
      · simpa using hacc.append (List.Sublist.refl [t])
      · intro pc _ _ _
        exact resetTicker_ticker_ne_none _ _ (by simpa using htk1)
    | cons r rs =>
      refine ⟨take_of_append _ _ _ hb1, ?_, by simp, ?_, fun _ _ _ _ => by simpa using htk1,
        by simp [hc]⟩
      · intro rest1 hp1
        have hp2 : some (PollPc.submit (r :: rs)) = some (PollPc.submit rest1) := hp1
        simp only [Option.some.injEq, PollPc.submit.injEq] at hp2
        subst hp2
        exact ⟨by simp, hb1⟩
      · simpa using hacc.append (List.Sublist.refl [t])

theorem tickInv_run {α ε : Type} (tp : TimedPool α) (as : List (Action α ε)) (s : Sys α ε)
    (log : TickLog α) (h : runLog (Sys.init tp) { batch := [], sent := [] } as = some (s, log)) :
    TickInv s log := by
  refine runLog_induction TickInv (fun s log a s1 hI hs => tickInv_step s s1 log a hI hs)
    as (Sys.init tp) s _ log ?_ h
  exact ⟨⟨0, Nat.zero_le _, rfl⟩, by simp [Sys.init], by simp [Sys.init], by simp,
    by simp [Sys.init], by simp [Sys.init]⟩

end Workerpool


namespace Workerpool

/-- Whatever happens after `demoWaiting`, the state differs from it only by a pending timer
tick and by the cancellation of the context. -/
theorem demoWaiting_closed (s s1 : Sys Nat Nat) (a : Action Nat Nat)
    (hs : ∃ p c, s = demoWaitingLater p c) (h : step s a = some s1) :
    ∃ p c, s1 = demoWaitingLater p c := by
  obtain ⟨p, c, rfl⟩ := hs
  cases a with
  | startPool =>
    obtain ⟨-, -, hst, -⟩ := (step_startPool _ s1).1 h
    simp [demoWaitingLater, demoWaiting] at hst
  | startTimed =>
    obtain ⟨-, -, hst, -⟩ := (step_startTimed _ s1).1 h
    simp [demoWaitingLater, demoWaiting] at hst
  | cancel =>
    obtain ⟨-, -, rfl⟩ := (step_cancel _ s1).1 h
    exact ⟨p, true, rfl⟩
  | addTask t =>
    obtain ⟨-, -, hlt, -⟩ := (step_addTask _ s1 t).1 h
    simp [demoWaitingLater, demoWaiting] at hlt
  | timerFire =>
    obtain ⟨-, -, -, rfl⟩ := (step_timerFire _ s1).1 h
    exact ⟨true, c, rfl⟩
  | close =>
    obtain ⟨-, -, hz, -⟩ := (step_close _ s1).1 h
    simp [demoWaitingLater, demoWaiting] at hz
  | workerExit i =>
    obtain ⟨-, -, hw, -, -⟩ := (step_workerExit _ s1 i).1 h
    simp [demoWaitingLater, demoWaiting] at hw
  | workerTake i =>
    obtain ⟨-, -, hw, -⟩ := (step_workerTake _ s1 i).1 h
    simp [demoWaitingLater, demoWaiting] at hw
  | workerReturn i =>
    obtain ⟨-, -, ⟨t, hw⟩, -⟩ := (step_workerReturn _ s1 i).1 h
    simp [demoWaitingLater, demoWaiting] at hw
  | pollFirst ts e =>
    obtain ⟨-, -, hp, -⟩ := (step_pollFirst _ s1 ts e).1 h
    simp [demoWaitingLater, demoWaiting] at hp
  | pollTick ts e =>
    obtain ⟨-, -, hp, -⟩ := (step_pollTick _ s1 ts e).1 h
    simp [demoWaitingLater, demoWaiting] at hp
  | pollExit =>
    obtain ⟨-, -, hp, -⟩ := (step_pollExit _ s1).1 h
    simp [demoWaitingLater, demoWaiting] at hp
  | pollCheck =>
    obtain ⟨-, -, t, rest, hp, -⟩ := (step_pollCheck _ s1).1 h
    simp [demoWaitingLater, demoWaiting] at hp
  | pollSend =>
    obtain ⟨-, -, hlt, -⟩ := (step_pollSend _ s1).1 h
    simp [demoWaitingLater, demoWaiting] at hlt

/-- C5 as stated fails.  A timed pool with a queue of capacity 1 and no worker function gets the
batch `[1, 2]` from its dispatcher: the tick passes the check, sends task `1`, passes the check
before task `2` (the context is not cancelled) and then waits in `AddTask` for room in the full
queue.  No check of this tick ever observes cancellation, yet whatever happens afterwards only
task `1` is enqueued and the ticker is never reset.  The same holds for one call of `tick` of
the pool with a worker when only the first send finds room: task `1` is enqueued, the call
does not return and the ticker is untouched. -/
theorem tick_blocked_mid_batch :
    runLog (Sys.init demoNoWorker) { batch := [], sent := [] } demoWaitingTrace =
        some (demoWaiting, { batch := [1, 2], sent := [1] }) ∧
      NewTimedPool 1024 true false false 1 100 = some demoNoWorker ∧
      demoWaiting.cancelled = false ∧
      demoWaiting.tp.pool.AddTask 2 = Outcome.blocked ∧
      (∀ as s, run demoWaiting as = some s →
        s.accepted = [1] ∧ s.poller = some (PollPc.sending 2 []) ∧
          s.ticker = some { period := 100000000, resets := 0 } ∧
          step s Action.pollSend = none) ∧
      tick demoTimed demoTicker [1, 2] (none : Option Nat) neverDone roomForOne =
        { hookCalls := [], submitted := [1], ticker := demoTicker, ending := TickEnd.blocked } := by
  refine ⟨by decide, by decide, rfl, by decide, ?_, by decide⟩
  intro as s hrun
  have hin : ∃ p c, s = demoWaitingLater p c :=
    run_induction (fun s => ∃ p c, s = demoWaitingLater p c)
      (fun s a s1 hs h => demoWaiting_closed s s1 a hs h) as demoWaiting s
      ⟨false, false, rfl⟩ hrun
  obtain ⟨p, c, rfl⟩ := hin
  refine ⟨rfl, rfl, rfl, ?_⟩
  cases h : step (demoWaitingLater p c) Action.pollSend with
  | none => rfl
  | some s1 =>
    obtain ⟨-, -, hlt, -⟩ := (step_pollSend _ s1).1 h
    simp [demoWaitingLater, demoWaiting] at hlt

end Workerpool

namespace Workerpool

/-- A polling loop inside the loop over the batch is alive: no panic has happened and `Close`
has not returned. -/
theorem poller_in_batch_live {α ε : Type} (s : Sys α ε) (log : TickLog α) (pc : PollPc α)
    (hT : TickInv s log) (hW : WgInv s) (hp : s.poller = some pc)
    (h1 : pc ≠ PollPc.wait) (h2 : pc ≠ PollPc.start) (h3 : pc ≠ PollPc.exited) :
    s.crashed = false ∧ s.tp.pool.tasks.closed = false := by
  obtain ⟨-, -, -, -, -, hcr⟩ := hT
  obtain ⟨hwg, hclosed, -⟩ := hW
  constructor
  · cases hx : s.crashed with
    | false => rfl
    | true =>
      rcases hcr hx with h | h
      · rw [hp] at h
        simp only [Option.some.injEq] at h
        exact absurd h h1
      · rw [hp] at h
        simp only [Option.some.injEq] at h
        exact absurd h h2
  · cases hx : s.tp.pool.tasks.closed with
    | false => rfl
    | true =>
      have hz := hclosed hx
      unfold Sys.liveLoops at hwg
      have hl : livePoller s.poller = 1 := by
        rw [hp]
        cases pc <;> simp_all [livePoller]
      omega

/-- C5, amended: in every state of a run of a pool built by `NewPool`, with a positive base
interval, the tasks that the tick in progress has enqueued are the first `k` tasks of its
batch, in order, for some `k ≤ n`, and they are in the queue's history in that order.  A tick
whose dispatcher succeeds with a non-empty batch begins at the check before the first task.
At a check, the polling loop either observes cancellation and `tick` returns, queue, history
and ticker untouched and the rest of the batch dropped, or goes on to the send; no send happens
without a check before it.  At a send, `AddTask` stays blocked while the queue is full; when
there is room it appends exactly the next task of the batch to the queue; after the last task
the ticker is reset once to the base interval, whatever its period was, and before that the
ticker is untouched. -/
theorem tick_enqueues_initial_segment {α ε : Type} (tp : TimedPool α) (lim : Nat) (w : Bool)
    (n : Int) (hnew : NewPool lim w n = some tp.pool) (hpos : 0 < tp.periodReceivingTasks)
    (as : List (Action α ε)) (s : Sys α ε) (log : TickLog α)
    (hrun : runLog (Sys.init tp) { batch := [], sent := [] } as = some (s, log)) :
    (∃ k, k ≤ log.batch.length ∧ log.sent = log.batch.take k) ∧
      log.sent.Sublist s.accepted ∧
      (∀ ts s1, ts ≠ [] →
        (step s (Action.pollFirst ts none) = some s1 ∨
          step s (Action.pollTick ts none) = some s1) →
        s1.poller = some (PollPc.submit ts) ∧ s1.tp = s.tp ∧ s1.accepted = s.accepted ∧
          (log.record s (Action.pollFirst ts (none : Option ε)) = { batch := ts, sent := [] }) ∧
          (log.record s (Action.pollTick ts (none : Option ε)) = { batch := ts, sent := [] })) ∧
      (∀ t rest, s.poller = some (PollPc.submit (t :: rest)) →
        log.batch = log.sent ++ t :: rest ∧
          step s Action.pollCheck =
            some (if s.cancelled = true then { s with poller := some PollPc.wait }
                  else { s with poller := some (PollPc.sending t rest) }) ∧
          log.record s Action.pollCheck = log) ∧
      (∀ t rest, s.poller = some (PollPc.sending t rest) →
        log.batch = log.sent ++ t :: rest ∧ step s Action.pollCheck = none ∧
          (s.tp.pool.QueueSize = s.tp.pool.WorkersCount →
            s.tp.pool.AddTask t = Outcome.blocked ∧ step s Action.pollSend = none) ∧
          (s.tp.pool.QueueSize < s.tp.pool.WorkersCount →
            ∃ s1, step s Action.pollSend = some s1 ∧
              s.tp.pool.AddTask t = Outcome.done s1.tp.pool ∧
              s1.tp.pool.tasks.buf = s.tp.pool.tasks.buf ++ [t] ∧
              s1.accepted = s.accepted ++ [t] ∧
              log.record s Action.pollSend = { log with sent := log.sent ++ [t] } ∧
              (rest = [] →
                log.sent ++ [t] = log.batch ∧ s1.poller = some PollPc.wait ∧
                  s1.crashed = false ∧
                  ∃ tk, s.ticker = some tk ∧
                    s1.ticker = some { period := tp.periodReceivingTasks
                                       resets := tk.resets + 1 }) ∧
              (rest ≠ [] → s1.poller = some (PollPc.submit rest) ∧ s1.ticker = s.ticker))) ∧
      ((∀ t rest, s.poller ≠ some (PollPc.sending t rest)) →
        step s Action.pollSend = none) := by
  have hT := tickInv_run tp as s log hrun
  have hr : Reachable (Sys.init tp) s := ⟨as, runLog_run as _ s _ log hrun⟩
  have hW := wgInv_reachable tp lim w n hnew s hr
  have hper : s.tp.periodReceivingTasks = tp.periodReceivingTasks :=
    (pollInv_reachable tp hpos s hr).1
  obtain ⟨hpre, hsub, hsend, hacc, htk, -⟩ := id hT
  refine ⟨hpre, hacc, ?_, ?_, ?_, ?_⟩
  · intro ts s1 hne hor
    obtain ⟨t0, ts0, rfl⟩ : ∃ t0 ts0, ts = t0 :: ts0 := by
      cases ts with
      | nil => exact absurd rfl hne
      | cons t0 ts0 => exact ⟨t0, ts0, rfl⟩
    have hbegin : TickLog.begin s (t0 :: ts0) (none : Option ε) =
        { batch := t0 :: ts0, sent := [] } :=
      begin_of_submit s _ _ (tickHead_ok_cons s.tp t0 ts0)
    have key : ∀ s2 : Sys α ε, s2.tp = s.tp → s2.accepted = s.accepted →
        (s2.tickBody (t0 :: ts0) (none : Option ε)).poller = some (PollPc.submit (t0 :: ts0)) ∧
          (s2.tickBody (t0 :: ts0) (none : Option ε)).tp = s.tp ∧
          (s2.tickBody (t0 :: ts0) (none : Option ε)).accepted = s.accepted := by
      intro s2 h1 h2
      rcases tickBody_cases s2 (t0 :: ts0) (none : Option ε) with ⟨-, -, heq⟩ | ⟨hno, -⟩
      · rw [heq]
        exact ⟨rfl, h1, h2⟩
      · exact absurd (tickHead_ok_cons s2.tp t0 ts0) (hno _)
    rcases hor with h | h
    · obtain ⟨-, -, -, hcase⟩ := (step_pollFirst s s1 _ _).1 h
      rcases hcase with ⟨hle, -⟩ | ⟨-, rfl⟩
      · omega
      · obtain ⟨k1, k2, k3⟩ := key _ rfl rfl
        exact ⟨k1, k2, k3, hbegin, hbegin⟩
    · obtain ⟨-, -, -, -, rfl⟩ := (step_pollTick s s1 _ _).1 h
      obtain ⟨k1, k2, k3⟩ := key _ rfl rfl
      exact ⟨k1, k2, k3, hbegin, hbegin⟩
  · intro t rest hp
    obtain ⟨hc, hcl⟩ := poller_in_batch_live s log _ hT hW hp (by simp) (by simp) (by simp)
    exact ⟨(hsub _ hp).2, (step_pollCheck s _).2 ⟨hc, hcl, t, rest, hp, rfl⟩, rfl⟩
  · intro t rest hp
    obtain ⟨hc, hcl⟩ := poller_in_batch_live s log _ hT hW hp (by simp) (by simp) (by simp)
    refine ⟨hsend _ _ hp, ?_, ?_, ?_⟩
    · cases h : step s Action.pollCheck with
      | none => rfl
      | some s1 =>
        obtain ⟨-, -, t1, r1, hp1, -⟩ := (step_pollCheck s s1).1 h
        rw [hp] at hp1
        simp at hp1
    · intro hfull
      have hnot : ¬ s.tp.pool.tasks.buf.length < s.tp.pool.tasks.cap := by
        simp only [Pool.QueueSize, Pool.WorkersCount] at hfull
        omega
      refine ⟨by rw [addTask_open _ _ hcl, if_neg hnot], ?_⟩
      cases h : step s Action.pollSend with
      | none => rfl
      | some s1 => exact absurd ((step_pollSend s s1).1 h).2.2.1 hnot
    · intro hroom
      have hlt : s.tp.pool.tasks.buf.length < s.tp.pool.tasks.cap := hroom
      have hrec : log.record s Action.pollSend = { log with sent := log.sent ++ [t] } := by
        simp [TickLog.record, hp]
      obtain ⟨tk, htk1⟩ : ∃ tk, s.ticker = some tk := by
        cases hx : s.ticker with
        | none => exact absurd hx (htk _ hp (by simp) (by simp))
        | some tk => exact ⟨tk, rfl⟩
      have hnot : ¬ s.tp.periodReceivingTasks ≤ 0 := by omega
      cases rest with
      | nil =>
        refine ⟨_, (step_pollSend s _).2 ⟨hc, hcl, hlt, t, [], hp, rfl⟩, ?_, ?_, ?_, hrec,
          ?_, fun h => absurd rfl h⟩
        · rw [addTask_open _ _ hcl, if_pos hlt]
          simp
        · simp
        · simp
        · intro _
          refine ⟨by rw [hsend _ _ hp], by simp, ?_, tk, htk1, ?_⟩
          · simp [Sys.resetTicker, Ticker.Reset, htk1, hnot, hc]
          · have hnot2 : ¬ tp.periodReceivingTasks ≤ 0 := by omega
            simp [Sys.resetTicker, Ticker.Reset, htk1, hnot2, hper]
      | cons r rs =>
        refine ⟨_, (step_pollSend s _).2 ⟨hc, hcl, hlt, t, r :: rs, hp, rfl⟩, ?_, rfl, rfl,
          hrec, fun h => by simp at h, fun _ => ⟨rfl, rfl⟩⟩
        rw [addTask_open _ _ hcl, if_pos hlt]
  · intro hno
    cases h : step s Action.pollSend with
    | none => rfl
    | some s1 =>
      obtain ⟨-, -, -, t, rest, hp, -⟩ := (step_pollSend s s1).1 h
      exact absurd hp (hno t rest)

end Workerpool


namespace Workerpool

theorem tick_enqueues_initial_segment_witness :
    (∃ k, k ≤ [1, 2].length ∧ [1] = [1, 2].take k) ∧
      ([1, 2] = [1] ++ 2 :: [] ∧ step demoSending Action.pollCheck = none ∧
        (demoSending.tp.pool.QueueSize = demoSending.tp.pool.WorkersCount →
          demoSending.tp.pool.AddTask 2 = Outcome.blocked ∧
            step demoSending Action.pollSend = none) ∧
        (demoSending.tp.pool.QueueSize < demoSending.tp.pool.WorkersCount →
          ∃ s1, step demoSending Action.pollSend = some s1 ∧
            demoSending.tp.pool.AddTask 2 = Outcome.done s1.tp.pool ∧
            s1.tp.pool.tasks.buf = demoSending.tp.pool.tasks.buf ++ [2] ∧
            s1.accepted = demoSending.accepted ++ [2] ∧
            TickLog.record { batch := [1, 2], sent := [1] } demoSending Action.pollSend =
              { batch := [1, 2], sent := [1] ++ [2] } ∧
            (([] : List Nat) = [] →
              [1] ++ [2] = [1, 2] ∧ s1.poller = some PollPc.wait ∧ s1.crashed = false ∧
                ∃ tk, demoSending.ticker = some tk ∧
                  s1.ticker = some { period := demoTimed.periodReceivingTasks
                                     resets := tk.resets + 1 }) ∧
            (([] : List Nat) ≠ [] →
              s1.poller = some (PollPc.submit []) ∧ s1.ticker = demoSending.ticker))) :=
  let h := tick_enqueues_initial_segment demoTimed 1024 true 1 (by decide) (by decide)
    demoSendingTrace demoSending { batch := [1, 2], sent := [1] } (by decide)
  ⟨h.1, h.2.2.2.2.1 2 [] rfl⟩

end Workerpool
